import Mathlib

/-!
# Verification model of the aihub RAG ingestion/retrieval engine

Shallow embedding of the TypeScript sources:
* `src/worker/semantic-chunker.ts` (text segmenter: paragraph / sentence /
  recursive / semantic strategies),
* `pinecone-store.ts` (vector store client: `addDocument`, `searchSimilar`,
  `hybridSearch`, `contextualSearch`, `deleteDocuments`),
* `pinecone-rag-processor.ts` (`processKnowledgeSource`, `findRelevantChunks`,
  `deleteKnowledgeSource`),
* `src/worker/index.ts` (queue consumer `queueHandler`, DELETE
  knowledge-source endpoint).

JS strings are modelled as `List Char`; JS numbers used as indices are `Int`
(so that `indexOf`'s `-1` is representable); similarity scores coming from
the vector index are `ℚ`; the semantic chunker's cosine similarities (which
need square roots) are `ℝ`.  External services (OpenAI embeddings, Pinecone
queries/upserts, wall-clock time) are oracle parameters.
-/

namespace AIHub

/-- JS strings as lists of characters. -/
abbrev Str := List Char

/-- Shorthand to turn a Lean string literal into the model's string type. -/
def jstr (s : String) : Str := s.data

/-- The ASCII part of JS whitespace (`\s`, and what `String.prototype.trim`
strips); all inputs considered in this development are ASCII. -/
def jsIsWS (c : Char) : Bool :=
  c == ' ' || c == '\t' || c == '\n' || c == '\r' || c == '\x0b' || c == '\x0c'

/-- JS `s.trim()`: strip whitespace from both ends. -/
def jsTrim (s : Str) : Str := (s.dropWhile jsIsWS).rdropWhile jsIsWS

/-- JS `s.toLowerCase()` restricted to ASCII. -/
def jsToLower (s : Str) : Str := s.map Char.toLower

/-- Generic split engine for JS `s.split(re)`: `m` returns the length (≥ 1)
of the regex match starting at the current position, or `none`.  Pieces
between matches are returned, keeping empty boundary pieces, as JS does.
Structural recursion on a fuel argument so the kernel can evaluate it; every
step consumes at least one character, so fuel `s.length` is always enough
and the fuel-exhausted branch is unreachable from `splitMatch`. -/
def splitMatchGo (m : Str → Option ℕ) : ℕ → Str → Str → List Str
  | _, [], piece => [piece.reverse]
  | 0, s, piece => [piece.reverse ++ s]
  | fuel + 1, c :: rest, piece =>
    match m (c :: rest) with
    | some k => piece.reverse :: splitMatchGo m fuel ((c :: rest).drop (max 1 k)) []
    | none => splitMatchGo m fuel rest (c :: piece)

/-- JS `s.split(re)` for a matcher `m` (match length at the current position). -/
def splitMatch (m : Str → Option ℕ) (s : Str) : List Str :=
  splitMatchGo m s.length s []

/-- JS `s.split(/P+/)` for a character class `P`: split on maximal non-empty
runs of `p`. -/
def splitRuns (p : Char → Bool) (s : Str) : List Str :=
  splitMatch (fun t =>
    let run := t.takeWhile p
    if run.length > 0 then some run.length else none) s

/-- JS `s.split(/\s+/)`. -/
def jsSplitWS (s : Str) : List Str := splitRuns jsIsWS s

/-- Sentence-final punctuation class `[.!?]`. -/
def isPunct (c : Char) : Bool := c == '.' || c == '!' || c == '?'

/-- Match length of `/\n\s*\n/` at the head of `s` (greedy `\s*` with the
backtracking needed to end on a final `\n`): a `\n` whose following maximal
whitespace run contains another `\n`; the match extends to the last `\n`
of that run. -/
def blankMatchLen (s : Str) : Option ℕ :=
  match s with
  | '\n' :: rest =>
    let run := rest.takeWhile jsIsWS
    match run.reverse.findIdx? (fun c => c == '\n') with
    | some j => some (run.length - 1 - j + 2)
    | none => none
  | _ => none

/-- JS `text.split(/\n\s*\n/)` (the paragraph split). -/
def splitBlank (text : Str) : List Str := splitMatch blankMatchLen text

/-- JS `text.split(/(?<=[.!?])\s+/)`: split on whitespace runs preceded by
sentence punctuation.  `piece` holds the current piece reversed, so its head
is the previously consumed character (the lookbehind).  Fueled structural
recursion; fuel `s.length` is always enough. -/
def splitAfterPunctGo : ℕ → Str → Str → List Str
  | _, [], piece => [piece.reverse]
  | 0, s, piece => [piece.reverse ++ s]
  | fuel + 1, c :: rest, piece =>
    if jsIsWS c && (match piece with | p :: _ => isPunct p | [] => false) then
      piece.reverse :: splitAfterPunctGo fuel (rest.dropWhile jsIsWS) []
    else
      splitAfterPunctGo fuel rest (c :: piece)

/-- JS `text.split(/(?<=[.!?])\s+/)`. -/
def splitAfterPunct (text : Str) : List Str := splitAfterPunctGo text.length text []

/-- JS `/[.!?]$/.test(s)`. -/
def jsEndsWithPunct (s : Str) : Bool :=
  match s.getLast? with
  | some c => isPunct c
  | none => false

/-- `SemanticChunker.splitIntoSentences`. -/
def splitIntoSentences (text : Str) : List Str :=
  let sentences :=
    ((((splitAfterPunct text).map jsTrim).filter
        (fun s => decide (s.length > 10))).map
      (fun s => if jsEndsWithPunct s then s else s ++ ['.']))
  if sentences.length ≤ 1 then
    (((splitRuns isPunct text).map jsTrim).filter
        (fun s => decide (s.length > 5))).map (fun s => s ++ ['.'])
  else
    sentences

/-- `SemanticChunker.countSentences`. -/
def countSentences (text : Str) : ℕ :=
  ((splitRuns isPunct text).filter (fun s => decide ((jsTrim s).length > 0))).length

/-- First index at which `pat` occurs in `hay`, as JS `hay.indexOf(pat)`
(`-1` when absent, `0` for the empty pattern). -/
def strIndexOfAux (pat : Str) : Str → ℕ → Option ℕ
  | [], i => if pat = [] then some i else none
  | c :: rest, i =>
    if pat <+: (c :: rest) then some i else strIndexOfAux pat rest (i + 1)

/-- JS `hay.indexOf(pat)`. -/
def jsIndexOf (hay pat : Str) : Int :=
  match strIndexOfAux pat hay 0 with
  | some n => (n : Int)
  | none => -1

/-- JS `s.lastIndexOf(c)` for a single character. -/
def lastIndexOfChar (s : Str) (c : Char) : Int :=
  match s.reverse.findIdx? (fun d => d == c) with
  | some j => (s.length : Int) - 1 - j
  | none => -1

/-- JS `s.slice(a, b)` for non-negative clamped bounds. -/
def jsSliceNN (s : Str) (a b : ℕ) : Str := (s.take b).drop a

/-- JS `s.slice(a, b)` with JS index normalisation (negative = from the
end). -/
def jsSliceInt (s : Str) (a b : Int) : Str :=
  let norm : Int → ℕ := fun i =>
    if i < 0 then ((s.length : Int) + i).toNat else min i.toNat s.length
  jsSliceNN s (norm a) (norm b)

/-- JS `s.slice(-n)` for a non-negative JS number `n`: note `s.slice(-0)`
is `s.slice(0)`, the whole string. -/
def jsTailJS (s : Str) (n : ℕ) : Str :=
  if n = 0 then s else s.drop (s.length - min n s.length)

/-- `SemanticChunker.getOverlapText`: prefer the shortest sentence suffix
that fits in `overlapSize`, else a raw character tail. -/
def getOverlapText (text : Str) (overlapSize : ℕ) : Str :=
  if text.length ≤ overlapSize then text
  else
    let sentences := splitIntoSentences text
    let ov :=
      match (List.range sentences.length).reverse.find?
          (fun i => decide ((List.intercalate [' '] (sentences.drop i)).length ≤ overlapSize)) with
      | some i => List.intercalate [' '] (sentences.drop i)
      | none => []
    if ov = [] then jsTailJS text overlapSize else ov

/-! ## Chunk data model (semantic-chunker.ts `SemanticChunk`) -/

/-- The `chunk_type` tags of `SemanticChunk.metadata`. -/
inductive ChunkType
  | paragraph
  | sentence
  | recursive
  | semantic
  | recursive_max_depth
  | recursive_small
  | recursive_forced
deriving DecidableEq

/-- `SemanticChunk.metadata`.  `semantic_similarity` is a real number (it
comes from cosine similarity of embedding vectors). -/
structure ChunkMeta where
  chunk_type : ChunkType
  start_index : Int
  end_index : Int
  length : Int
  semantic_similarity : Option ℝ := none
  parent_chunk : Option Int := none
  section_title : Option Str := none
  sentence_count : Option ℕ := none

/-- `SemanticChunk`. -/
structure SemanticChunk where
  content : Str
  metadata : ChunkMeta
  chunk_index : ℕ

/-! ## Paragraph strategy (`SemanticChunker.chunkByParagraphs`) -/

/-- Loop state of `chunkByParagraphs` / `chunkBySentences`. -/
structure AccState where
  currentChunk : Str
  chunkIndex : ℕ
  startIndex : Int
  chunks : List SemanticChunk

/-- The chunk pushed by `chunkByParagraphs` (both at overflow and at the
end of the loop). -/
def paraChunk (st : AccState) : SemanticChunk :=
  { content := jsTrim st.currentChunk
    metadata :=
      { chunk_type := .paragraph
        start_index := st.startIndex
        end_index := st.startIndex + st.currentChunk.length
        length := st.currentChunk.length
        sentence_count := some (countSentences st.currentChunk) }
    chunk_index := st.chunkIndex }

/-- One iteration of the `for (const paragraph of paragraphs)` loop of
`chunkByParagraphs`. -/
def paraStep (text : Str) (maxChunkSize overlap : ℕ) (st : AccState)
    (paragraph : Str) : AccState :=
  let trimmedParagraph := jsTrim paragraph
  if st.currentChunk.length + trimmedParagraph.length > maxChunkSize ∧
      st.currentChunk.length > 0 then
    let chunk := paraChunk st
    let currentChunk := getOverlapText st.currentChunk overlap ++ jstr "\n\n" ++ trimmedParagraph
    { currentChunk := currentChunk
      chunkIndex := st.chunkIndex + 1
      startIndex := st.startIndex + (currentChunk.length : Int) -
        ((getOverlapText st.currentChunk overlap).length : Int)
      chunks := st.chunks ++ [chunk] }
  else if st.currentChunk.length > 0 then
    { st with currentChunk := st.currentChunk ++ jstr "\n\n" ++ trimmedParagraph }
  else
    { st with
      currentChunk := trimmedParagraph
      startIndex := jsIndexOf text trimmedParagraph }

/-- `SemanticChunker.chunkByParagraphs`. -/
def chunkByParagraphs (text : Str) (maxChunkSize overlap : ℕ) : List SemanticChunk :=
  let paragraphs := (splitBlank text).filter (fun p => decide ((jsTrim p).length > 0))
  let st := paragraphs.foldl (paraStep text maxChunkSize overlap) ⟨[], 0, 0, []⟩
  if (jsTrim st.currentChunk).length > 0 then st.chunks ++ [paraChunk st] else st.chunks

/-! ## Sentence strategy (`SemanticChunker.chunkBySentences`) -/

/-- The chunk pushed by `chunkBySentences`. -/
def sentChunk (st : AccState) : SemanticChunk :=
  { content := jsTrim st.currentChunk
    metadata :=
      { chunk_type := .sentence
        start_index := st.startIndex
        end_index := st.startIndex + st.currentChunk.length
        length := st.currentChunk.length
        sentence_count := some (countSentences st.currentChunk) }
    chunk_index := st.chunkIndex }

/-- One iteration of the sentence loop of `chunkBySentences`. -/
def sentStep (text : Str) (maxChunkSize overlap : ℕ) (st : AccState)
    (sentence : Str) : AccState :=
  if st.currentChunk.length + sentence.length > maxChunkSize ∧
      st.currentChunk.length > 0 then
    let chunk := sentChunk st
    let currentChunk := getOverlapText st.currentChunk overlap ++ [' '] ++ sentence
    { currentChunk := currentChunk
      chunkIndex := st.chunkIndex + 1
      startIndex := st.startIndex + (currentChunk.length : Int) -
        ((getOverlapText st.currentChunk overlap).length : Int)
      chunks := st.chunks ++ [chunk] }
  else if st.currentChunk.length > 0 then
    { st with currentChunk := st.currentChunk ++ [' '] ++ sentence }
  else
    { st with
      currentChunk := sentence
      startIndex := jsIndexOf text sentence }

/-- `SemanticChunker.chunkBySentences`. -/
def chunkBySentences (text : Str) (maxChunkSize overlap : ℕ) : List SemanticChunk :=
  let sentences := splitIntoSentences text
  let st := sentences.foldl (sentStep text maxChunkSize overlap) ⟨[], 0, 0, []⟩
  if (jsTrim st.currentChunk).length > 0 then st.chunks ++ [sentChunk st] else st.chunks

/-! ## Recursive strategy (`SemanticChunker.chunkRecursively`)

The source's `recursiveChunk(content, parentIndex, depth)` recurses with
`depth + 1` and force-emits at `depth > 10`, so recursion depth is bounded
by 11; we mirror it with a fuel argument `fuel = 11 - depth`.  The
paragraph/sentence accumulation loops only build the flushed sub-contents
(they never read the shared `chunks` array), so we first compute the list
of flushed `(content, chunkStart)` groups and then recurse over it in
order, which appends exactly the same chunks with the same indices. -/

/-- State of the accumulation loops inside `recursiveChunk`. -/
structure GroupState where
  currentChunk : Str
  chunkStart : Int
  groups : List (Str × Int)

/-- Flush step shared by the paragraph/sentence loops of `recursiveChunk`:
`sep` is the joining separator (`"\n\n"` or `" "`). -/
def groupFlush (overlap : ℕ) (sep : Str) (st : GroupState) (unit : Str) : GroupState :=
  let overlapText := getOverlapText st.currentChunk overlap
  let currentChunk := overlapText ++ (if overlapText ≠ [] then sep else []) ++ unit
  { currentChunk := currentChunk
    chunkStart := st.chunkStart + ((currentChunk.length : Int) -
      (overlapText.length : Int) - (unit.length : Int))
    groups := st.groups ++ [(jsTrim st.currentChunk, st.chunkStart)] }

/-- The paragraph accumulation loop of `recursiveChunk` (condition
`currentChunk.length + trimmedParagraph.length + 2 > maxChunkSize`). -/
def groupParasStep (maxChunkSize overlap : ℕ) (st : GroupState) (paragraph : Str) :
    GroupState :=
  let trimmedParagraph := jsTrim paragraph
  if trimmedParagraph.length = 0 then st
  else if st.currentChunk.length + trimmedParagraph.length + 2 > maxChunkSize ∧
      st.currentChunk.length > 0 then
    groupFlush overlap (jstr "\n\n") st trimmedParagraph
  else if st.currentChunk.length > 0 then
    { st with currentChunk := st.currentChunk ++ jstr "\n\n" ++ trimmedParagraph }
  else
    { st with currentChunk := trimmedParagraph }

/-- The sentence accumulation loop of `recursiveChunk` (condition
`currentChunk.length + sentence.length + 1 > maxChunkSize`). -/
def groupSentsStep (maxChunkSize overlap : ℕ) (st : GroupState) (sentence : Str) :
    GroupState :=
  if st.currentChunk.length + sentence.length + 1 > maxChunkSize ∧
      st.currentChunk.length > 0 then
    groupFlush overlap [' '] st sentence
  else if st.currentChunk.length > 0 then
    { st with currentChunk := st.currentChunk ++ [' '] ++ sentence }
  else
    { st with currentChunk := sentence }

/-- Run an accumulation loop and append the final flush (guarded by
`currentChunk.trim().length > 0`, as in the source). -/
def runGrouping (step : GroupState → Str → GroupState) (parentIndex : Int)
    (units : List Str) : List (Str × Int) :=
  let st := units.foldl step ⟨[], parentIndex, []⟩
  if (jsTrim st.currentChunk).length > 0 then
    st.groups ++ [(jsTrim st.currentChunk, st.chunkStart)]
  else st.groups

/-- Chunk pushed by `recursiveChunk` for the `recursive` and
`recursive_max_depth` cases (with `parent_chunk`). -/
def recChunkMk (t : ChunkType) (maxChunkSize : ℕ) (content : Str)
    (parentIndex : Int) (idx : ℕ) : SemanticChunk :=
  { content := jsTrim content
    metadata :=
      { chunk_type := t
        start_index := parentIndex
        end_index := parentIndex + content.length
        length := content.length
        parent_chunk :=
          if parentIndex > 0 then some (Int.fdiv parentIndex maxChunkSize) else none
        sentence_count := some (countSentences content) }
    chunk_index := idx }

/-- Chunk pushed for content shorter than 50 characters
(`recursive_small`, hard-coded `sentence_count: 1`). -/
def recSmallChunk (content : Str) (parentIndex : Int) (idx : ℕ) : SemanticChunk :=
  { content := jsTrim content
    metadata :=
      { chunk_type := .recursive_small
        start_index := parentIndex
        end_index := parentIndex + content.length
        length := content.length
        sentence_count := some 1 }
    chunk_index := idx }

/-- Chunk pushed when no split applies (`recursive_forced`). -/
def recForcedChunk (content : Str) (parentIndex : Int) (idx : ℕ) : SemanticChunk :=
  { content := jsTrim content
    metadata :=
      { chunk_type := .recursive_forced
        start_index := parentIndex
        end_index := parentIndex + content.length
        length := content.length
        sentence_count := some (countSentences content) }
    chunk_index := idx }

mutual

/-- `recursiveChunk(content, parentIndex, depth)` with `fuel = 11 - depth`
(the `depth > 10` guard is the `fuel = 0` case). -/
def recGo (maxChunkSize overlap : ℕ) :
    ℕ → Str → Int → List SemanticChunk → List SemanticChunk
  | 0, content, parentIndex, chunks =>
    if (jsTrim content).length > 0 then
      chunks ++ [recChunkMk .recursive_max_depth maxChunkSize content parentIndex chunks.length]
    else chunks
  | fuel + 1, content, parentIndex, chunks =>
    if content.length ≤ maxChunkSize then
      if (jsTrim content).length > 0 then
        chunks ++ [recChunkMk .recursive maxChunkSize content parentIndex chunks.length]
      else chunks
    else if content.length < 50 then
      if (jsTrim content).length > 0 then
        chunks ++ [recSmallChunk content parentIndex chunks.length]
      else chunks
    else
      let paragraphs := (splitBlank content).filter (fun p => decide ((jsTrim p).length > 0))
      if paragraphs.length > 1 then
        recRunGroups maxChunkSize overlap fuel
          (runGrouping (groupParasStep maxChunkSize overlap) parentIndex paragraphs) chunks
      else
        let sentences := splitIntoSentences content
        if sentences.length > 1 then
          recRunGroups maxChunkSize overlap fuel
            (runGrouping (groupSentsStep maxChunkSize overlap) parentIndex sentences) chunks
        else
          let midpoint := content.length / 2
          let searchRange := content.length / 5
          let lo := midpoint - searchRange
          let hi := min content.length (midpoint + searchRange)
          let splitPoint :=
            match (List.range' lo (hi + 1 - lo)).find?
                (fun i => content.get? i == some ' ' || content.get? i == some '\n') with
            | some i => i
            | none => midpoint
          let beforeSplit := jsTrim (content.take splitPoint)
          let afterSplit := jsTrim (content.drop splitPoint)
          if beforeSplit.length > 0 ∧ afterSplit.length > 0 then
            recGo maxChunkSize overlap fuel afterSplit (parentIndex + splitPoint)
              (recGo maxChunkSize overlap fuel beforeSplit parentIndex chunks)
          else if (jsTrim content).length > 0 then
            chunks ++ [recForcedChunk content parentIndex chunks.length]
          else chunks
termination_by fuel _ _ _ => (fuel, 0)

/-- Process the flushed groups of one accumulation loop in order, each via
`recursiveChunk` at `depth + 1`. -/
def recRunGroups (maxChunkSize overlap : ℕ) :
    ℕ → List (Str × Int) → List SemanticChunk → List SemanticChunk
  | _, [], chunks => chunks
  | fuel, g :: gs, chunks =>
    recRunGroups maxChunkSize overlap fuel gs
      (recGo maxChunkSize overlap fuel g.1 g.2 chunks)
termination_by fuel gs _ => (fuel, gs.length + 1)

end

/-- `SemanticChunker.chunkRecursively` (initial call at depth 0, final
filter of empty-content chunks). -/
def chunkRecursively (text : Str) (maxChunkSize overlap : ℕ) : List SemanticChunk :=
  (recGo maxChunkSize overlap 11 text 0 []).filter
    (fun chunk => decide ((jsTrim chunk.content).length > 0))

/-! ## Semantic strategy (`SemanticChunker.chunkBySemantic`)

The embedding service is an oracle `embedO batchStart batch` returning the
batch's embedding vectors, or `none` when that batch's request throws (the
source catches per-batch errors and continues).  The
`while (start < text.length)` loop of `simpleCharacterSplit` has no
structural termination measure — a run that exhausts any amount of fuel is
reported as `none`, and divergence of the source loop corresponds to
`simpleCharacterSplit fuel … = none` for every `fuel`. -/

/-- One step per iteration of the `simpleCharacterSplit` while-loop.
`5 * lastSpace > 4 * maxSize` is the exact integer form of the source's
float comparison `lastSpace > maxSize * 0.8`. -/
def scsGo (text : Str) (maxSize overlap : ℕ) : ℕ → Int → List Str → Option (List Str)
  | 0, _, _ => none
  | fuel + 1, start, acc =>
    if start < (text.length : Int) then
      let e : Int := min (start + maxSize) text.length
      let chunk0 := jsSliceInt text start e
      let chunk :=
        if e < (text.length : Int) then
          let lastSpace := lastIndexOfChar chunk0 ' '
          if 5 * lastSpace > 4 * (maxSize : Int) then jsSliceInt text start (start + lastSpace)
          else chunk0
        else chunk0
      scsGo text maxSize overlap fuel (e - overlap) (acc ++ [chunk])
    else some acc

/-- `SemanticChunker.simpleCharacterSplit` (fuelled). -/
def simpleCharacterSplit (fuel : ℕ) (text : Str) (maxSize overlap : ℕ) :
    Option (List Str) :=
  scsGo text maxSize overlap fuel 0 []

/-- `SemanticChunker.calculateSimilarity` (cosine similarity). -/
noncomputable def calculateSimilarity (vec1 vec2 : List ℝ) : ℝ :=
  if vec1.length ≠ vec2.length then 0
  else
    let dotProduct := ((vec1.zip vec2).map (fun p => p.1 * p.2)).sum
    let norm1 := (vec1.map (fun x => x * x)).sum
    let norm2 := (vec2.map (fun x => x * x)).sum
    dotProduct / (Real.sqrt norm1 * Real.sqrt norm2)

/-- `SemanticChunker.calculateMean`. -/
noncomputable def calculateMean (numbers : List ℝ) : ℝ :=
  numbers.sum / numbers.length

/-- `SemanticChunker.calculateStdDev`. -/
noncomputable def calculateStdDev (numbers : List ℝ) : ℝ :=
  Real.sqrt (((numbers.map (fun x => (x - calculateMean numbers) ^ 2)).sum) / numbers.length)

/-- `list.slice(a, b)` on lists. -/
def listSlice {α : Type} (l : List α) (a b : ℕ) : List α := (l.take b).drop a

/-- The batch start offsets `0, 5, 10, …` of the embedding loop. -/
def batchStarts (n : ℕ) : List ℕ := (List.range ((n + 4) / 5)).map (fun k => k * 5)

/-- The embedding-generation loop of `chunkBySemantic`: batches of 5
sentences, each filtered to sentences with trimmed length > 10; a batch
whose request fails (oracle `none`) is skipped. -/
def semanticEmbeddings (embedO : ℕ → List Str → Option (List (List ℝ)))
    (limitedSentences : List Str) : List (List ℝ) :=
  (batchStarts limitedSentences.length).foldl
    (fun acc i =>
      let batch := (listSlice limitedSentences i (i + 5)).filter
        (fun s => decide ((jsTrim s).length > 10))
      if batch.length = 0 then acc
      else
        match embedO i batch with
        | some embs => acc ++ embs
        | none => acc)
    []

open Classical in
/-- `SemanticChunker.chunkBySemantic`.  Returns `none` exactly when the
oversized-group sub-splitting (`simpleCharacterSplit`) fails to finish
within `fuel` iterations. -/
noncomputable def chunkBySemantic (embedO : ℕ → List Str → Option (List (List ℝ)))
    (fuel : ℕ) (text : Str) (maxChunkSize overlap : ℕ) :
    Option (List SemanticChunk) :=
  if text.length ≤ maxChunkSize then
    some [{ content := jsTrim text
            metadata :=
              { chunk_type := .semantic
                start_index := 0
                end_index := text.length
                length := text.length
                sentence_count := some (countSentences text) }
            chunk_index := 0 }]
  else
    let sentences := splitIntoSentences text
    if sentences.length ≤ 2 ∨ sentences.any (fun s => decide ((jsTrim s).length = 0)) then
      some (chunkByParagraphs text maxChunkSize overlap)
    else
      let limitedSentences := sentences.take 50
      let embeddings := semanticEmbeddings embedO limitedSentences
      if embeddings.length < 2 then
        some (chunkByParagraphs text maxChunkSize overlap)
      else
        let similarities := (List.range (embeddings.length - 1)).map
          (fun i => calculateSimilarity (embeddings.getD i []) (embeddings.getD (i + 1) []))
        if similarities.length = 0 then
          some (chunkByParagraphs text maxChunkSize overlap)
        else
          let mean := calculateMean similarities
          let stdDev := calculateStdDev similarities
          let threshold := max 0.3 (mean - stdDev * 0.5)
          let breakpoints :=
            ((List.range similarities.length).foldl
              (fun bps i =>
                if similarities.getD i 0 < threshold ∧ bps.getLast? ≠ some (i + 1) then
                  bps ++ [i + 1]
                else bps)
              [0]) ++ [min limitedSentences.length sentences.length]
          if breakpoints.length ≤ 2 then
            some (chunkByParagraphs text maxChunkSize overlap)
          else
            let build : Option (List SemanticChunk) :=
              (List.range (breakpoints.length - 1)).foldlM
                (fun (acc : List SemanticChunk) i =>
                  let start := breakpoints.getD i 0
                  let stop := breakpoints.getD (i + 1) 0
                  let chunkSentences := listSlice sentences start stop
                  let content := jsTrim (List.intercalate [' '] chunkSentences)
                  let semSim : Option ℝ :=
                    if i > 0 ∧ start ≥ 1 ∧ start - 1 < similarities.length ∧
                        similarities.getD (start - 1) 0 ≠ 0 then
                      some (similarities.getD (start - 1) 0)
                    else none
                  if content.length = 0 then some acc
                  else if 2 * content.length > 3 * maxChunkSize then
                    match simpleCharacterSplit fuel content maxChunkSize overlap with
                    | none => none
                    | some parts =>
                      some (parts.foldl
                        (fun acc2 part =>
                          acc2 ++ [{ content := jsTrim part
                                     metadata :=
                                       { chunk_type := .semantic
                                         start_index := jsIndexOf text (jsTrim part)
                                         end_index := jsIndexOf text (jsTrim part) + part.length
                                         length := part.length
                                         semantic_similarity := semSim
                                         sentence_count := some (countSentences part) }
                                     chunk_index := acc2.length }])
                        acc)
                  else
                    let startIndex := jsIndexOf text (chunkSentences.headD [])
                    some (acc ++ [{ content := content
                                    metadata :=
                                      { chunk_type := .semantic
                                        start_index := startIndex
                                        end_index := startIndex + content.length
                                        length := content.length
                                        semantic_similarity := semSim
                                        sentence_count := some chunkSentences.length }
                                    chunk_index := acc.length }]))
                []
            match build with
            | none => none
            | some chunks =>
              if chunks.length = 0 then
                some (chunkByParagraphs text maxChunkSize overlap)
              else some chunks

/-- The four chunking strategies of `chunkTextSemantically`. -/
inductive ChunkStrategy
  | paragraph
  | sentence
  | recursive
  | semantic
deriving DecidableEq

/-- `SemanticChunker.chunkTextSemantically` (strategy dispatch; the source
defaults are `maxChunkSize = 2000`, `overlap = 400`,
`strategy = 'recursive'`). -/
noncomputable def chunkTextSemantically (embedO : ℕ → List Str → Option (List (List ℝ)))
    (fuel : ℕ) (text : Str) (maxChunkSize overlap : ℕ) (strategy : ChunkStrategy) :
    Option (List SemanticChunk) :=
  match strategy with
  | .paragraph => some (chunkByParagraphs text maxChunkSize overlap)
  | .sentence => some (chunkBySentences text maxChunkSize overlap)
  | .recursive => some (chunkRecursively text maxChunkSize overlap)
  | .semantic => chunkBySemantic embedO fuel text maxChunkSize overlap

/-! ## Vector store retrieval (`pinecone-store.ts`)

The Pinecone index and the OpenAI embedding endpoint are oracles; similarity
scores are rationals.  `metadata` is the open JS record restricted to the
fields this code reads or writes. -/

/-- Metadata record of a stored/returned Pinecone match, restricted to the
fields the retrieval code touches; the fields written only by enhancement
(`vector_score`, …) start absent (`none`), as in JS. -/
structure RMeta where
  agent_id : Int
  knowledge_source_id : Int
  content : Str
  chunk_index : Int
  content_length : Int := 0
  vector_score : Option ℚ := none
  keyword_score : Option ℚ := none
  hybrid_score : Option ℚ := none
  has_context : Option Bool := none
  context_chunks : Option ℕ := none
deriving DecidableEq

/-- A raw match returned by `index.query` (`score` and `metadata` may be
absent, as in the Pinecone client types). -/
structure PMatch where
  id : Str
  score : Option ℚ
  metadata : Option RMeta
deriving DecidableEq

/-- `PineconeSearchResult`. -/
structure PineconeSearchResult where
  id : Str
  content : Str
  similarity : ℚ
  metadata : RMeta
deriving DecidableEq

/-- The metadata filter shapes the code builds: the `searchSimilar` filter
(agent scope plus optional narrowing) and the `contextualSearch`
surrounding-chunk filter. -/
inductive PFilter
  | search (agent_id : Int) (source_type content_type language : Option Str)
      (min_length : Option Int)
  | context (agent_id knowledge_source_id loIdx hiIdx : Int)
deriving DecidableEq

/-- An `index.query` request. -/
structure QueryReq where
  vector : List ℚ
  topK : ℕ
  filter : PFilter
deriving DecidableEq

/-- External-service oracle: OpenAI embeddings plus Pinecone queries.
`Except.error` is a thrown/rejected call. -/
structure PineconeEnv where
  embedRaw : Str → Except Str (List ℚ)
  query : QueryReq → Except Str (List PMatch)

/-- Stable insertion of `x` after every already-placed `y` with `le y x`. -/
def insertStable {α : Type} (le : α → α → Bool) (x : α) : List α → List α
  | [] => [x]
  | y :: ys => if le y x then y :: insertStable le x ys else x :: y :: ys

/-- JS `Array.prototype.sort(cmp)` for a comparator inducing the total
preorder `le a b ↔ cmp(a,b) ≤ 0`: JS sort is stable, and a stable sort
under a total preorder is unique, so stable insertion sort computes it. -/
def jsSort {α : Type} (le : α → α → Bool) (l : List α) : List α :=
  l.foldl (fun acc x => insertStable le x acc) []

/-- `PineconeVectorStore.generateEmbedding` (empty input is replaced by a
single space: `input: text || ' '`). -/
def generateEmbedding (env : PineconeEnv) (text : Str) : Except Str (List ℚ) :=
  env.embedRaw (if text = [] then [' '] else text)

/-- The optional narrowing filters accepted by `searchSimilar`. -/
structure SearchFilters where
  source_type : Option Str := none
  content_type : Option Str := none
  language : Option Str := none
  min_length : Option Int := none
deriving DecidableEq

/-- One iteration of the result-processing loop of `searchSimilar`: keep a
match when it has metadata and `score ≥ threshold`. -/
def searchAccStep (threshold : ℚ) (acc : List PineconeSearchResult) (m : PMatch) :
    List PineconeSearchResult :=
  let similarity := m.score.getD 0
  match m.metadata with
  | some md =>
    if similarity ≥ threshold then
      acc ++ [{ id := m.id, content := md.content, similarity := similarity,
                metadata := md }]
    else acc
  | none => acc

/-- `PineconeVectorStore.searchSimilar`: embed the query, issue one filtered
query with `topK = limit * 2`, keep matches with metadata and
`score ≥ threshold`, return the first `limit`.  Errors are re-thrown. -/
def searchSimilar (env : PineconeEnv) (query : Str) (agentId : Int) (limit : ℕ)
    (threshold : ℚ) (filters : SearchFilters) :
    Except Str (List PineconeSearchResult) := do
  let queryEmbedding ← generateEmbedding env query
  let searchResults ← env.query
    { vector := queryEmbedding
      topK := limit * 2
      filter := .search agentId filters.source_type filters.content_type
        filters.language filters.min_length }
  let results := searchResults.foldl (searchAccStep threshold) []
  pure (results.take limit)

/-- `PineconeVectorStore.extractSearchKeywords`: lower-case, strip
non-word characters, keep words longer than 2, cap at 10. -/
def isWordChar (c : Char) : Bool :=
  ('a' ≤ c && c ≤ 'z') || ('A' ≤ c && c ≤ 'Z') || ('0' ≤ c && c ≤ '9') || c == '_'

/-- `PineconeVectorStore.extractSearchKeywords`. -/
def extractSearchKeywords (query : Str) : List Str :=
  (((jsSplitWS ((jsToLower query).map (fun c => if isWordChar c then c else ' '))).filter
      (fun word => decide (word.length > 2))).take 10)

/-- `PineconeVectorStore.calculateKeywordSimilarity`: fraction of keywords
occurring as substrings of the (lower-cased) content. -/
def calculateKeywordSimilarity (keywords : List Str) (content : Str) : ℚ :=
  let contentLower := jsToLower content
  let matchCount := keywords.countP (fun keyword => decide ((jsToLower keyword) <:+: contentLower))
  if keywords.length > 0 then (matchCount : ℚ) / keywords.length else 0

/-- `PineconeVectorStore.hybridSearch`: vector search with a relaxed 0.5
threshold and doubled candidate count, re-scored as
`0.8 * vector + 0.2 * keyword`, re-sorted descending (stably), first
`limit` returned.  Note that the caller's threshold is never consulted. -/
def hybridSearch (env : PineconeEnv) (query : Str) (agentId : Int) (limit : ℕ)
    (vectorWeight : ℚ := mkRat 4 5) (keywordWeight : ℚ := mkRat 1 5) :
    Except Str (List PineconeSearchResult) := do
  let vectorResults ← searchSimilar env query agentId (limit * 2) (mkRat 1 2) {}
  let keywords := extractSearchKeywords query
  let enhancedResults := vectorResults.map (fun result =>
    let keywordScore := calculateKeywordSimilarity keywords result.content
    let hybridScore := result.similarity * vectorWeight + keywordScore * keywordWeight
    { result with
        similarity := hybridScore
        metadata := { result.metadata with
          vector_score := some result.similarity
          keyword_score := some keywordScore
          hybrid_score := some hybridScore } })
  pure ((jsSort (fun a b => decide (b.similarity ≤ a.similarity)) enhancedResults).take limit)

/-- The per-hit context expansion of `contextualSearch`: fetch the chunks
whose `chunk_index` lies within `contextWindow` of the hit (same agent and
knowledge source), sort them by position and join them; a failing context
query leaves the hit unchanged.  The hit's `similarity` is never
modified. -/
def contextEnhance (env : PineconeEnv) (agentId : Int) (contextWindow : ℕ)
    (result : PineconeSearchResult) : PineconeSearchResult :=
  let ctx : Except Str (List PMatch) := do
    let v ← generateEmbedding env []
    env.query
      { vector := v
        topK := contextWindow * 2 + 1
        filter := .context agentId result.metadata.knowledge_source_id
          (max 0 (result.metadata.chunk_index - contextWindow))
          (result.metadata.chunk_index + contextWindow) }
  match ctx with
  | .error _ => result
  | .ok contextResults =>
    let contextChunks :=
      ((jsSort (fun a b => decide ((a.metadata.map RMeta.chunk_index).getD 0 ≤
            (b.metadata.map RMeta.chunk_index).getD 0))
          (contextResults.filter (fun m => m.metadata.isSome))).map
        (fun m => (m.metadata.map RMeta.content).getD []))
    let contextContent :=
      if contextChunks.length > 1 then List.intercalate (jstr "\n\n") contextChunks
      else result.content
    { result with
        content := contextContent
        metadata := { result.metadata with
          has_context := some (contextChunks.length > 1)
          context_chunks := some contextChunks.length } }

/-- `PineconeVectorStore.contextualSearch`: vector search at the *default*
threshold `0.7`, then per hit a surrounding-chunk query (window 2 by
default); a failing context query leaves that hit unchanged. -/
def contextualSearch (env : PineconeEnv) (query : Str) (agentId : Int) (limit : ℕ)
    (contextWindow : ℕ := 2) : Except Str (List PineconeSearchResult) := do
  let results ← searchSimilar env query agentId limit (mkRat 7 10) {}
  pure (results.map (contextEnhance env agentId contextWindow))

/-! ## `PineconeRAGProcessor.findRelevantChunks` -/

/-- The three retrieval strategies of `findRelevantChunks`. -/
inductive SearchStrategy
  | vector
  | hybrid
  | contextual
deriving DecidableEq

/-- An element of `findRelevantChunks`' result. -/
structure FoundChunk where
  content : Str
  similarity : ℚ
  metadata : RMeta
deriving DecidableEq

/-- `PineconeRAGProcessor.findRelevantChunks`: dispatch on the strategy
(source defaults `maxChunks = 3`, `threshold = 0.7`, strategy `'hybrid'`,
context window 2) and map to `{content, similarity, metadata}`.  Any error
is caught and the empty list returned. -/
def findRelevantChunks (env : PineconeEnv) (query : Str) (agentId : Int)
    (maxChunks : ℕ) (threshold : ℚ) (searchStrategy : SearchStrategy)
    (filters : SearchFilters) : List FoundChunk :=
  let results : Except Str (List PineconeSearchResult) :=
    match searchStrategy with
    | .vector => searchSimilar env query agentId maxChunks threshold filters
    | .hybrid => hybridSearch env query agentId maxChunks
    | .contextual => contextualSearch env query agentId maxChunks 2
  match results with
  | .ok rs => rs.map (fun r =>
      { content := r.content
        similarity := r.similarity
        metadata := r.metadata })
  | .error _ => []

/-! ## Storing documents (`PineconeVectorStore.addDocument`) and its
metadata helpers -/

/-- JS `s.split(sep)` for a one-character literal separator (each
occurrence splits, unlike run-splitting). -/
def splitChar (sep : Char) (s : Str) : List Str :=
  splitMatch (fun t => match t with
    | c :: _ => if c = sep then some 1 else none
    | [] => none) s

/-- Decimal digits of an all-digit string. -/
def digitsToNat (w : Str) : ℕ := w.foldl (fun n c => n * 10 + (c.toNat - '0'.toNat)) 0

/-- Whether a JS object key is an array index (all digits, canonical form):
such keys are enumerated first, in ascending numeric order, by
`Object.entries`. -/
def isArrayIndexStr (w : Str) : Bool :=
  (decide (w ≠ [])) && w.all (fun c => c.isDigit) && (w == jstr "0" || w.head? != some '0')

/-- Whether one line matches `^\s*#` or `^\s*\d+\.` (the per-line part of
the multiline `classifyContent` regex). -/
def lineStructured (l : Str) : Bool :=
  let stripped := l.dropWhile jsIsWS
  match stripped with
  | '#' :: _ => true
  | _ =>
    let ds := stripped.takeWhile (fun c => c.isDigit)
    decide (ds.length > 0) && ((stripped.drop ds.length).head? == some '.')

/-- `/\b(word)\b/.test(text)`: `word` occurs with non-word characters (or
the string ends) on both sides. -/
def containsWordB (text word : Str) : Bool :=
  (List.range (text.length + 1)).any (fun i =>
    (listSlice text i (i + word.length) == word) &&
    (decide (i = 0) || !(isWordChar (text.getD (i - 1) ' '))) &&
    (decide (i + word.length = text.length) || !(isWordChar (text.getD (i + word.length) ' '))))

/-- `PineconeVectorStore.classifyContent`. -/
def classifyContent (text : Str) : Str :=
  if (splitChar '\n' text).any lineStructured then jstr "structured"
  else if decide (jstr "http://" <:+: text) || decide (jstr "https://" <:+: text) ||
      decide (jstr "www." <:+: text) then jstr "web_content"
  else if containsWordB text (jstr "function") || containsWordB text (jstr "class") ||
      containsWordB text (jstr "import") || containsWordB text (jstr "export") then
    jstr "code"
  else if containsWordB (jsToLower text) (jstr "abstract") ||
      containsWordB (jsToLower text) (jstr "introduction") ||
      containsWordB (jsToLower text) (jstr "conclusion") ||
      containsWordB (jsToLower text) (jstr "references") then jstr "academic"
  else if text.length < 100 then jstr "short"
  else jstr "general"

/-- `PineconeVectorStore.detectLanguage` (the word lists transcribe the
bytes of the source file). -/
def detectLanguage (text : Str) : Str :=
  let commonPortugueseWords := [jstr "que", jstr "nÃ£o", jstr "uma", jstr "para",
    jstr "com", jstr "como", jstr "mas", jstr "por", jstr "ser", jstr "isso"]
  let commonEnglishWords := [jstr "the", jstr "and", jstr "for", jstr "are",
    jstr "but", jstr "not", jstr "you", jstr "all", jstr "can", jstr "had"]
  let words := (jsSplitWS (jsToLower text)).take 50
  let ptMatches := (words.filter (fun word => commonPortugueseWords.contains word)).length
  let enMatches := (words.filter (fun word => commonEnglishWords.contains word)).length
  if ptMatches > enMatches then jstr "pt"
  else if enMatches > ptMatches then jstr "en"
  else jstr "unknown"

/-- Frequency bump with JS-object insertion order (first occurrence keeps
its position). -/
def bumpFreq : List (Str × ℕ) → Str → List (Str × ℕ)
  | [], w => [(w, 1)]
  | (k, v) :: rest, w =>
    if k = w then (k, v + 1) :: rest else (k, v) :: bumpFreq rest w

/-- The `wordFreq` object of `extractKeywords`. -/
def wordFreqOf (text : Str) : List (Str × ℕ) :=
  (jsSplitWS (jsToLower text)).foldl
    (fun m word =>
      let cleaned := word.filter isWordChar
      if cleaned.length > 3 then bumpFreq m cleaned else m)
    []

/-- `Object.entries` enumeration order: array-index-like keys first in
ascending numeric order, then the rest in insertion order. -/
def entriesOrdered (m : List (Str × ℕ)) : List (Str × ℕ) :=
  (jsSort (fun a b => decide (digitsToNat a.1 ≤ digitsToNat b.1))
      (m.filter (fun kv => isArrayIndexStr kv.1))) ++
    m.filter (fun kv => !(isArrayIndexStr kv.1))

/-- `PineconeVectorStore.extractKeywords`: `(top_keywords,
keyword_density)`. -/
def extractKeywordsMeta (text : Str) : List Str × ℚ :=
  let words := jsSplitWS (jsToLower text)
  let sortedWords := (jsSort (fun a b => decide (b.2 ≤ a.2))
      (entriesOrdered (wordFreqOf text))).take 5
  (sortedWords.map (fun kv => kv.1),
    if sortedWords.length > 0 then ((sortedWords.headD ([], 0)).2 : ℚ) / words.length
    else 0)

/-- The metadata record upserted by `addDocument`.  `additional` is the
`...additionalMetadata` spread (opaque string entries). -/
structure StoredMeta where
  agent_id : Int
  knowledge_source_id : Int
  content : Str
  chunk_index : Int
  content_length : Int
  word_count : Int
  content_type : Str
  language : Str
  source_name : Option Str
  source_type : Option Str
  created_at : Str
  has_numbers : Bool
  has_urls : Bool
  attempt : ℕ
  top_keywords : List Str
  keyword_density : ℚ
  additional : List (Str × Str)
deriving DecidableEq

/-- A vector-index record (`PineconeDocument`). -/
structure StoredDoc where
  id : Str
  values : List ℚ
  metadata : StoredMeta
deriving DecidableEq

/-- Integer to JS decimal string. -/
def intStr (i : Int) : Str := (toString i).data

/-- Natural number to JS decimal string. -/
def natStr (n : ℕ) : Str := (toString n).data

/-- Per-attempt external effects of one `addDocument` call: embedding
result (covering the 30 s timeout race), upsert result (likewise),
`Date.now()` and `new Date().toISOString()`. -/
structure AddDocEnv where
  embed : ℕ → Str → Except Str (List ℚ)
  upsert : ℕ → Except Str Unit
  now : ℕ → ℕ
  createdAt : ℕ → Str

/-- The metadata object built inside `addDocument` (over the
already-truncated content). -/
def buildStoredMeta (agentId knowledgeSourceId : Int) (content : Str)
    (chunkIndex : Int) (sourceName sourceType : Option Str) (createdAt : Str)
    (attempt : ℕ) (additional : List (Str × Str)) : StoredMeta :=
  { agent_id := agentId
    knowledge_source_id := knowledgeSourceId
    content := jsSliceNN content 0 40000
    chunk_index := chunkIndex
    content_length := content.length
    word_count := (jsSplitWS content).length
    content_type := classifyContent content
    language := detectLanguage content
    source_name := sourceName
    source_type := sourceType
    created_at := createdAt
    has_numbers := content.any (fun c => c.isDigit)
    has_urls := decide (jstr "http://" <:+: content) || decide (jstr "https://" <:+: content)
    attempt := attempt
    top_keywords := (extractKeywordsMeta content).1
    keyword_density := (extractKeywordsMeta content).2
    additional := additional }

/-- The in-place truncation of `addDocument`
(`if (content.length > 40000) content = content.slice(0, 40000)`). -/
def truncate40k (content : Str) : Str :=
  if content.length > 40000 then jsSliceNN content 0 40000 else content

/-- One attempt body of `addDocument`: validate, truncate to 40 000
characters, embed, build metadata, upsert. -/
def addDocAttempt (env : AddDocEnv) (knowledgeSourceId agentId : Int)
    (content : Str) (chunkIndex : Int) (sourceName sourceType : Option Str)
    (additional : List (Str × Str)) (attempt : ℕ) : Except Str StoredDoc :=
  if (jsTrim content).length = 0 then .error (jstr "Content cannot be empty")
  else
    let c := truncate40k content
    match env.embed attempt (if c = [] then [' '] else c) with
    | .error e => .error e
    | .ok embedding =>
      let id := intStr agentId ++ ['_'] ++ intStr knowledgeSourceId ++ ['_'] ++
        intStr chunkIndex ++ ['_'] ++ natStr (env.now attempt)
      let metadata := buildStoredMeta agentId knowledgeSourceId c chunkIndex
        sourceName sourceType (env.createdAt attempt) attempt additional
      match env.upsert attempt with
      | .error e => .error e
      | .ok _ => .ok { id := id, values := embedding, metadata := metadata }

deriving instance DecidableEq for Except

/-- Result of `addDocument` together with the attempts made and the backoff
waits performed (in milliseconds). -/
structure AddDocOutcome where
  result : Except Str StoredDoc
  attemptsUsed : ℕ
  waits : List ℕ
deriving DecidableEq

/-- The `for (attempt = 1; attempt <= maxRetries; attempt++)` loop of
`addDocument`: `left + 1` attempts remain, the current one is `attempt`.
After a failed attempt the (possibly truncated) `content` persists, and if
attempts remain the loop waits `min(1000 * 2^(attempt-1), 5000)` ms. -/
def addAttemptLoop (env : AddDocEnv) (knowledgeSourceId agentId : Int)
    (chunkIndex : Int) (sourceName sourceType : Option Str)
    (additional : List (Str × Str)) :
    ℕ → ℕ → Str → List ℕ → AddDocOutcome
  | attempt, 0, _, waits =>
    ⟨.error (jstr "Failed to add document after all retries"), attempt - 1, waits⟩
  | attempt, left + 1, content, waits =>
    match addDocAttempt env knowledgeSourceId agentId content chunkIndex
        sourceName sourceType additional attempt with
    | .ok d => ⟨.ok d, attempt, waits⟩
    | .error e =>
      let content' :=
        if (jsTrim content).length = 0 then content else truncate40k content
      if left = 0 then ⟨.error e, attempt, waits⟩
      else
        addAttemptLoop env knowledgeSourceId agentId chunkIndex sourceName
          sourceType additional (attempt + 1) left content'
          (waits ++ [min (1000 * 2 ^ (attempt - 1)) 5000])

/-- `PineconeVectorStore.addDocument` (`maxRetries = 3`). -/
def addDocument (env : AddDocEnv) (knowledgeSourceId agentId : Int)
    (content : Str) (chunkIndex : Int) (sourceName sourceType : Option Str)
    (additional : List (Str × Str)) : AddDocOutcome :=
  addAttemptLoop env knowledgeSourceId agentId chunkIndex sourceName sourceType
    additional 1 3 content []

/-- `PineconeVectorStore.deleteDocuments`: delete-by-filter on the agent id
and, when given, the knowledge source id. -/
def deleteDocuments (store : List StoredDoc) (agentId : Int)
    (knowledgeSourceId : Option Int) : List StoredDoc :=
  store.filter (fun d =>
    !(d.metadata.agent_id == agentId &&
      (match knowledgeSourceId with
       | some k => d.metadata.knowledge_source_id == k
       | none => true)))

/-- `PineconeRAGProcessor.deleteKnowledgeSource(agentId,
knowledgeSourceId)`. -/
def ragDeleteKnowledgeSource (store : List StoredDoc) (agentId knowledgeSourceId : Int) :
    List StoredDoc :=
  deleteDocuments store agentId (some knowledgeSourceId)

/-! ## The DELETE `/api/knowledge-sources/:sourceId` endpoint
(`src/worker/index.ts`) -/

/-- A `knowledge_sources` row (the fields the endpoint reads). -/
structure KnowledgeSourceRow where
  id : Int
  agent_id : Int
deriving DecidableEq

/-- A `document_chunks` row (the field the endpoint's delete uses). -/
structure ChunkRow where
  knowledge_source_id : Int
deriving DecidableEq

/-- The stores the endpoint mutates. -/
structure AppState where
  vstore : List StoredDoc
  document_chunks : List ChunkRow
  knowledge_sources : List KnowledgeSourceRow
deriving DecidableEq

/-- The DELETE endpoint body after the access check: it calls
`processor.deleteKnowledgeSource(parseInt(sourceId), parseInt(sourceId))` —
passing the *source id* as both the agent id and the knowledge-source id —
then deletes the `document_chunks` rows and the `knowledge_sources` row.
(A rejection of the vector-store delete is caught and ignored; the success
path is modelled.) -/
def deleteKnowledgeSourceEndpoint (st : AppState) (sourceId : Int) : AppState :=
  { vstore := ragDeleteKnowledgeSource st.vstore sourceId sourceId
    document_chunks := st.document_chunks.filter
      (fun r => !(r.knowledge_source_id == sourceId))
    knowledge_sources := st.knowledge_sources.filter (fun r => !(r.id == sourceId)) }

/-! ## Ingestion (`PineconeRAGProcessor.processKnowledgeSource`)

Content extraction (URL fetch / YouTube transcript / file parsing, plus the
60 s race) and chunking (`chunkText`, plus the 2 min race) are external or
asynchronous, so they enter as oracles; the per-chunk storage calls
`addDocument` with a per-chunk `AddDocEnv` (whose errors also cover the
per-chunk 30 s race). -/

/-- `DocumentChunk` of the RAG processor. -/
structure DocumentChunk where
  content : Str
  metadata : List (Str × Str)
  chunk_index : Int
deriving DecidableEq

/-- The chunking settings passed to `processKnowledgeSource`. -/
structure PKSettings where
  chunk_size : ℕ
  chunk_overlap : ℕ
  chunking_strategy : Str
deriving DecidableEq

/-- The `sourceData` argument of `processKnowledgeSource`. -/
structure SourceData where
  type : Str
  name : Str
  source_url : Option Str := none
  content : Option Str := none
  file_path : Option Str := none
deriving DecidableEq

/-- Result record of `processKnowledgeSource`. -/
structure PKResult where
  success : Bool
  chunks_count : ℕ
  error : Option Str
deriving DecidableEq

/-- The `additionalMetadata` passed for chunk number `i` (list position):
the chunk's own metadata plus provenance entries and
`batch_index = ⌊i / 5⌋`. -/
def additionalFor (sourceData : SourceData) (settings : PKSettings)
    (processedAt : Str) (chunk : DocumentChunk) (i : ℕ) : List (Str × Str) :=
  chunk.metadata ++
    [(jstr "original_url", (sourceData.source_url).getD []),
     (jstr "processing_strategy", settings.chunking_strategy),
     (jstr "processed_at", processedAt),
     (jstr "batch_index", natStr (i / 5))]

/-- The storage outcome of chunk number `i`. -/
def storeChunkResult (envs : ℕ → AddDocEnv) (processedAt : ℕ → Str)
    (sourceId agentId : Int) (sourceData : SourceData) (settings : PKSettings)
    (i : ℕ) (chunk : DocumentChunk) : Except Str StoredDoc :=
  (addDocument (envs i) sourceId agentId chunk.content chunk.chunk_index
    (some sourceData.name) (some sourceData.type)
    (additionalFor sourceData settings (processedAt i) chunk i)).result

/-- `PineconeRAGProcessor.processKnowledgeSource`.  `extractRes` is the
raced `extractContent()` result, `chunkRes` the raced `chunkText` result.
Batching (5 per batch, 1 s pause) does not affect which chunks are stored,
so `successCount` is the number of chunks whose `addDocument` succeeds; the
`lastError` reported for a total failure is the last failing chunk's error
in list order. -/
def processKnowledgeSource (extractRes : Except Str Str)
    (chunkRes : Str → Except Str (List DocumentChunk)) (envs : ℕ → AddDocEnv)
    (processedAt : ℕ → Str) (sourceId agentId : Int) (sourceData : SourceData)
    (settings : PKSettings) : PKResult :=
  match extractRes with
  | .error e => ⟨false, 0, some e⟩
  | .ok content0 =>
    if (jsTrim content0).length = 0 then
      ⟨false, 0, some (jstr "No content extracted from source or content is empty")⟩
    else if decide (jstr "Results available at:" <:+: content0) ||
        decide (jstr "full_zip_url" <:+: content0) then
      ⟨false, 0, some (jstr "PDF processing incomplete - content extraction from MinerU ZIP file failed. Please try re-uploading the PDF or use a different format.")⟩
    else if content0.length < 10 then
      ⟨false, 0, some (jstr "Content too short - minimum 10 characters required")⟩
    else
      let content := if content0.length > 1000000 then jsSliceNN content0 0 1000000
        else content0
      match chunkRes content with
      | .error e => ⟨false, 0, some e⟩
      | .ok chunks =>
        if chunks.length = 0 then
          ⟨false, 0, some (jstr "No chunks created from content - chunking failed")⟩
        else
          let outcomes := chunks.enum.map (fun p =>
            storeChunkResult envs processedAt sourceId agentId sourceData settings p.1 p.2)
          let successCount := outcomes.countP (fun o => o.toBool)
          if successCount = 0 then
            let errorMsg := ((outcomes.filterMap (fun o =>
              match o with
              | .error e => some e
              | .ok _ => none)).getLast?).getD (jstr "Failed to store any chunks")
            ⟨false, 0, some (jstr "Storage failed: " ++ errorMsg)⟩
          else
            ⟨true, successCount,
              if successCount < chunks.length then
                some (jstr "Partial success: " ++ natStr successCount ++ ['/'] ++
                  natStr chunks.length ++ jstr " chunks stored")
              else none⟩

/-! ## Queue consumer (`queueHandler` in `src/worker/index.ts`) -/

/-- An `IngestionJob` message body (`retryCount` may be absent on first
delivery; `msg.retryCount || 0` reads it). -/
structure QueueMsg where
  sourceId : Int
  agentId : Int
  retryCount : Option ℕ
deriving DecidableEq

/-- What `queueHandler` does with one delivered message: acknowledge,
redeliver with an incremented retry count (`message.retry({...msg,
retryCount})`), or mark the source `failed` with a terminal
`progress_message` and acknowledge. -/
inductive QueueAction
  | ackOk
  | redeliver (m : QueueMsg)
  | ackFailed (progress_message : Str)
deriving DecidableEq

/-- The per-message body of `queueHandler`: `outcome` is the result of
`processKnowledgeSourcePineconeWithRetry` for this delivery. -/
def handleMessage (outcome : Except Str Unit) (msg : QueueMsg) : QueueAction :=
  match outcome with
  | .ok _ => .ackOk
  | .error e =>
    let retryCount := msg.retryCount.getD 0 + 1
    if retryCount ≤ 3 then .redeliver { msg with retryCount := some retryCount }
    else
      .ackFailed (jstr "Processing failed after " ++ natStr retryCount ++
        jstr " attempts: " ++ e)

/-- The at-least-once transport: the message delivered the `n`-th time
(0-based), given the per-delivery processing outcomes; `none` when the job
was acknowledged before (no such delivery happens).  The queue is a
Cloudflare Queue (`env.RAG_QUEUE`), whose consumer-side
`Message.retry(options)` accepts only delivery options such as
`delaySeconds` and always redelivers the message's original, immutable
body; the object the handler passes — `message.retry({ ...msg, retryCount })`
— cannot replace the body, so a redelivery carries `msg0` unchanged, not
the handler's updated copy. -/
def deliveryMsg (process : ℕ → Except Str Unit) (msg0 : QueueMsg) : ℕ → Option QueueMsg
  | 0 => some msg0
  | n + 1 =>
    match deliveryMsg process msg0 n with
    | none => none
    | some m =>
      match handleMessage (process n) m with
      | .redeliver _ => some msg0
      | _ => none

/-- The handler's action at the `n`-th delivery, when it happens. -/
def actionAt (process : ℕ → Except Str Unit) (msg0 : QueueMsg) (n : ℕ) :
    Option QueueAction :=
  (deliveryMsg process msg0 n).map (handleMessage (process n))

/-! ## Helper lemmas: trimming and non-whitespace content -/

theorem mem_dropWhile_of_not {p : Char → Bool} {s : Str} {c : Char}
    (hc : c ∈ s) (hp : p c = false) : c ∈ s.dropWhile p := by
  have := List.takeWhile_append_dropWhile p s
  rw [← this] at hc
  rcases List.mem_append.mp hc with h | h
  · exact absurd (List.mem_takeWhile_imp h) (by simp [hp])
  · exact h

theorem rdropWhile_append_rtakeWhile (p : Char → Bool) (l : Str) :
    l.rdropWhile p ++ l.rtakeWhile p = l := by
  rw [List.rdropWhile, List.rtakeWhile, ← List.reverse_append,
    List.takeWhile_append_dropWhile, List.reverse_reverse]

theorem mem_rdropWhile_of_not {p : Char → Bool} {s : Str} {c : Char}
    (hc : c ∈ s) (hp : p c = false) : c ∈ s.rdropWhile p := by
  have := rdropWhile_append_rtakeWhile p s
  rw [← this] at hc
  rcases List.mem_append.mp hc with h | h
  · exact h
  · exact absurd (List.mem_rtakeWhile_imp h) (by simp [hp])

theorem mem_jsTrim_of_not {s : Str} {c : Char} (hc : c ∈ s)
    (hp : jsIsWS c = false) : c ∈ jsTrim s :=
  mem_rdropWhile_of_not (mem_dropWhile_of_not hc hp) hp

theorem jsTrim_eq_nil_iff {s : Str} : jsTrim s = [] ↔ ∀ c ∈ s, jsIsWS c = true := by
  constructor
  · intro h c hc
    by_contra hw
    have hw' : jsIsWS c = false := by
      cases hx : jsIsWS c
      · rfl
      · exact absurd hx hw
    exact List.ne_nil_of_mem (mem_jsTrim_of_not hc hw') h
  · intro h
    unfold jsTrim
    rw [List.rdropWhile_eq_nil_iff]
    intro c hc
    exact h c ((List.dropWhile_suffix jsIsWS).sublist.subset hc)

theorem jsTrim_ne_nil_iff {s : Str} : jsTrim s ≠ [] ↔ ∃ c ∈ s, jsIsWS c = false := by
  constructor
  · intro h
    by_contra hno
    push_neg at hno
    refine h (jsTrim_eq_nil_iff.mpr (fun c hc => ?_))
    have := hno c hc
    cases hx : jsIsWS c
    · exact absurd hx this
    · rfl
  · rintro ⟨c, hc, hw⟩
    exact List.ne_nil_of_mem (mem_jsTrim_of_not hc hw)

/-- Trimming twice is still non-empty when the string holds a
non-whitespace character. -/
theorem jsTrim_jsTrim_ne_nil {s : Str} (h : ∃ c ∈ s, jsIsWS c = false) :
    jsTrim (jsTrim s) ≠ [] := by
  rcases h with ⟨c, hc, hw⟩
  exact jsTrim_ne_nil_iff.mpr ⟨c, mem_jsTrim_of_not hc hw, hw⟩

/-- Every sentence produced by `splitIntoSentences` holds a non-whitespace
character. -/
theorem splitIntoSentences_nonws {t : Str} :
    ∀ s ∈ splitIntoSentences t, ∃ c ∈ s, jsIsWS c = false := by
  intro s hs
  simp only [splitIntoSentences] at hs
  split at hs
  · rcases List.mem_map.mp hs with ⟨x, hx, rfl⟩
    exact ⟨'.', by simp, by decide⟩
  · rcases List.mem_map.mp hs with ⟨x, hx, rfl⟩
    rcases List.mem_filter.mp hx with ⟨hx', hlen⟩
    rcases List.mem_map.mp hx' with ⟨y, _, rfl⟩
    have hne : jsTrim y ≠ [] := by
      intro hnil
      rw [hnil] at hlen
      exact absurd (of_decide_eq_true hlen) (by simp)
    rcases jsTrim_ne_nil_iff.mp hne with ⟨c, hc, hw⟩
    by_cases hp : jsEndsWithPunct (jsTrim y) = true
    · exact ⟨c, by simp [hp, mem_jsTrim_of_not hc hw], hw⟩
    · refine ⟨'.', ?_, by decide⟩
      simp only [hp]
      simp

/-! ## Claim C6: no strategy returns a chunk with empty trimmed content -/

/-- The invariant carried through the `chunkByParagraphs` /
`chunkBySentences` loops. -/
def AccInv (st : AccState) : Prop :=
  (st.currentChunk = [] ∨ ∃ c ∈ st.currentChunk, jsIsWS c = false) ∧
    ∀ ch ∈ st.chunks, jsTrim ch.content ≠ []

theorem paraStep_inv {text : Str} {maxCS overlap : ℕ} {st : AccState} {p : Str}
    (hp : ∃ c ∈ jsTrim p, jsIsWS c = false) (hinv : AccInv st) :
    AccInv (paraStep text maxCS overlap st p) := by
  obtain ⟨h1, h2⟩ := hinv
  rcases hp with ⟨c, hc, hw⟩
  simp only [paraStep]
  by_cases hcond : st.currentChunk.length + (jsTrim p).length > maxCS ∧
      st.currentChunk.length > 0
  · rw [if_pos hcond]
    refine ⟨Or.inr ⟨c, by simp [hc], hw⟩, ?_⟩
    intro ch hch
    rcases List.mem_append.mp hch with h | h
    · exact h2 ch h
    · rcases List.mem_singleton.mp h with rfl
      rcases h1 with hnil | hex
      · rw [hnil] at hcond
        exact absurd hcond.2 (by simp)
      · exact jsTrim_jsTrim_ne_nil hex
  · rw [if_neg hcond]
    by_cases hpos : st.currentChunk.length > 0
    · rw [if_pos hpos]
      exact ⟨Or.inr ⟨c, by simp [hc], hw⟩, h2⟩
    · rw [if_neg hpos]
      exact ⟨Or.inr ⟨c, hc, hw⟩, h2⟩

theorem sentStep_inv {text : Str} {maxCS overlap : ℕ} {st : AccState} {s : Str}
    (hp : ∃ c ∈ s, jsIsWS c = false) (hinv : AccInv st) :
    AccInv (sentStep text maxCS overlap st s) := by
  obtain ⟨h1, h2⟩ := hinv
  rcases hp with ⟨c, hc, hw⟩
  simp only [sentStep]
  by_cases hcond : st.currentChunk.length + s.length > maxCS ∧
      st.currentChunk.length > 0
  · rw [if_pos hcond]
    refine ⟨Or.inr ⟨c, by simp [hc], hw⟩, ?_⟩
    intro ch hch
    rcases List.mem_append.mp hch with h | h
    · exact h2 ch h
    · rcases List.mem_singleton.mp h with rfl
      rcases h1 with hnil | hex
      · rw [hnil] at hcond
        exact absurd hcond.2 (by simp)
      · exact jsTrim_jsTrim_ne_nil hex
  · rw [if_neg hcond]
    by_cases hpos : st.currentChunk.length > 0
    · rw [if_pos hpos]
      exact ⟨Or.inr ⟨c, by simp [hc], hw⟩, h2⟩
    · rw [if_neg hpos]
      exact ⟨Or.inr ⟨c, hc, hw⟩, h2⟩

theorem foldl_inv {α : Type} (step : AccState → α → AccState) (P : α → Prop)
    (hstep : ∀ st a, P a → AccInv st → AccInv (step st a)) :
    ∀ (l : List α) (st : AccState), (∀ a ∈ l, P a) → AccInv st →
      AccInv (l.foldl step st)
  | [], st, _, hinv => hinv
  | a :: l, st, hl, hinv => by
    rw [List.foldl_cons]
    exact foldl_inv step P hstep l (step st a)
      (fun b hb => hl b (List.mem_cons_of_mem a hb))
      (hstep st a (hl a (List.mem_cons_self a l)) hinv)

/-- Final step shared by the paragraph/sentence chunkers: appending the
guarded final chunk preserves the no-empty-content property, for any chunk
maker whose content is `jsTrim st.currentChunk`. -/
theorem finish_no_empty {st : AccState} (hinv : AccInv st)
    {mkC : AccState → SemanticChunk} (hmk : (mkC st).content = jsTrim st.currentChunk) :
    ∀ ch ∈ (if (jsTrim st.currentChunk).length > 0 then st.chunks ++ [mkC st]
      else st.chunks), jsTrim ch.content ≠ [] := by
  obtain ⟨h1, h2⟩ := hinv
  intro ch hch
  split at hch
  · rename_i hfin
    rcases List.mem_append.mp hch with h | h
    · exact h2 ch h
    · rcases List.mem_singleton.mp h with rfl
      rw [hmk]
      have hne : jsTrim st.currentChunk ≠ [] := by
        intro hnil
        rw [hnil] at hfin
        exact absurd hfin (by simp)
      exact jsTrim_jsTrim_ne_nil (jsTrim_ne_nil_iff.mp hne)
  · exact h2 ch hch

theorem filtered_paras_nonws {text : Str} :
    ∀ p ∈ (splitBlank text).filter (fun p => decide ((jsTrim p).length > 0)),
      ∃ c ∈ jsTrim p, jsIsWS c = false := by
  intro p hp
  have hlen := of_decide_eq_true (List.mem_filter.mp hp).2
  have hne : jsTrim p ≠ [] := by
    intro hnil
    rw [hnil] at hlen
    exact absurd hlen (by simp)
  rcases jsTrim_ne_nil_iff.mp hne with ⟨c, hc, hw⟩
  exact ⟨c, mem_jsTrim_of_not hc hw, hw⟩

theorem chunkByParagraphs_no_empty (text : Str) (maxCS overlap : ℕ) :
    ∀ ch ∈ chunkByParagraphs text maxCS overlap, jsTrim ch.content ≠ [] := by
  have hinv := foldl_inv (paraStep text maxCS overlap)
    (fun p => ∃ c ∈ jsTrim p, jsIsWS c = false)
    (fun _ _ ha hinv => paraStep_inv ha hinv)
    ((splitBlank text).filter (fun p => decide ((jsTrim p).length > 0)))
    ⟨[], 0, 0, []⟩ filtered_paras_nonws ⟨Or.inl rfl, by simp⟩
  exact finish_no_empty hinv rfl

theorem chunkBySentences_no_empty (text : Str) (maxCS overlap : ℕ) :
    ∀ ch ∈ chunkBySentences text maxCS overlap, jsTrim ch.content ≠ [] := by
  have hinv := foldl_inv (sentStep text maxCS overlap)
    (fun s => ∃ c ∈ s, jsIsWS c = false)
    (fun _ _ ha hinv => sentStep_inv ha hinv)
    (splitIntoSentences text) ⟨[], 0, 0, []⟩ splitIntoSentences_nonws
    ⟨Or.inl rfl, by simp⟩
  exact finish_no_empty hinv rfl

theorem chunkRecursively_no_empty (text : Str) (maxCS overlap : ℕ) :
    ∀ ch ∈ chunkRecursively text maxCS overlap, jsTrim ch.content ≠ [] := by
  intro ch hch
  unfold chunkRecursively at hch
  have := of_decide_eq_true (List.mem_filter.mp hch).2
  intro hnil
  rw [hnil] at this
  exact absurd this (by simp)

/-- C6 (amended): for the `paragraph`, `sentence` and `recursive`
strategies, for every input text, `maxChunkSize` and `overlap`, no chunk
returned by the segmenter has content that is empty after trimming
whitespace.  (The `semantic` strategy violates this —
see `c6_counterexample`.) -/
theorem c6_segment_no_empty_chunks
    (embedO : ℕ → List Str → Option (List (List ℝ))) (fuel : ℕ) (text : Str)
    (maxChunkSize overlap : ℕ) (strategy : ChunkStrategy)
    (hstrat : strategy ≠ ChunkStrategy.semantic) (l : List SemanticChunk)
    (hl : chunkTextSemantically embedO fuel text maxChunkSize overlap strategy = some l) :
    ∀ ch ∈ l, jsTrim ch.content ≠ [] := by
  cases strategy with
  | paragraph =>
    cases hl
    exact chunkByParagraphs_no_empty text maxChunkSize overlap
  | sentence =>
    cases hl
    exact chunkBySentences_no_empty text maxChunkSize overlap
  | recursive =>
    cases hl
    exact chunkRecursively_no_empty text maxChunkSize overlap
  | semantic => exact absurd rfl hstrat

/-- C6 counterexample: on whitespace-only input the `semantic` strategy
returns a single chunk whose content is the empty string (the short-text
path pushes `text.trim()` unguarded), so a returned chunk with empty
trimmed content exists. -/
theorem c6_counterexample :
    (chunkTextSemantically (fun _ _ => none) 0 (jstr " ") 2000 400 .semantic).map
      (List.map SemanticChunk.content) = some [[]] := by
  rfl

/-- C6 witness: concrete run of the amended theorem on the paragraph
strategy. -/
theorem c6_witness :
    (chunkByParagraphs (jstr "Hi there.") 2000 400).all
      (fun ch => !(jsTrim ch.content).isEmpty) = true := by
  have h := c6_segment_no_empty_chunks (fun _ _ => none) 0 (jstr "Hi there.")
    2000 400 .paragraph (by decide) (chunkByParagraphs (jstr "Hi there.") 2000 400) rfl
  refine List.all_eq_true.mpr (fun ch hch => ?_)
  have := h ch hch
  simpa using this

/-! ## Claim C5: semantic strategy fallback to the paragraph strategy -/

/-- C5 (amended): for input *longer than `maxChunkSize`* with fewer than 3
sentences, the semantic strategy falls back to the paragraph strategy and
returns exactly its result, for any responses of the embedding service.
(For input that fits in `maxChunkSize` the sentence count is never
consulted and a single `'semantic'`-typed chunk is returned instead — see
`c5_counterexample`.) -/
theorem c5_semantic_fallback (embedO : ℕ → List Str → Option (List (List ℝ)))
    (fuel : ℕ) (text : Str) (maxChunkSize overlap : ℕ)
    (hlen : maxChunkSize < text.length)
    (hsent : (splitIntoSentences text).length ≤ 2) :
    chunkBySemantic embedO fuel text maxChunkSize overlap =
      some (chunkByParagraphs text maxChunkSize overlap) := by
  simp only [chunkBySemantic]
  rw [if_neg (by omega), if_pos (Or.inl hsent)]

/-- C5 counterexample: on `"Hello world friend."` (one sentence, 19
characters ≤ `maxChunkSize`) the semantic strategy returns a single chunk
tagged `'semantic'`, while the paragraph strategy invoked directly returns
the chunk tagged `'paragraph'` — the chunk sequences differ. -/
theorem c5_counterexample :
    chunkBySemantic (fun _ _ => none) 0 (jstr "Hello world friend.") 2000 400 ≠
      some (chunkByParagraphs (jstr "Hello world friend.") 2000 400) := by
  intro h
  have h2 := congrArg (Option.map (List.map (fun ch => ch.metadata.chunk_type))) h
  rw [show (chunkBySemantic (fun _ _ => none) 0 (jstr "Hello world friend.")
        2000 400).map (List.map (fun ch => ch.metadata.chunk_type)) =
      some [ChunkType.semantic] from rfl,
    show (some (chunkByParagraphs (jstr "Hello world friend.") 2000 400)).map
        (List.map (fun ch => ch.metadata.chunk_type)) =
      some [ChunkType.paragraph] from rfl] at h2
  exact absurd h2 (by decide)

/-- C5 witness: a concrete two-or-fewer-sentence text longer than
`maxChunkSize`. -/
theorem c5_witness :
    chunkBySemantic (fun _ _ => none) 0 (jstr "abc def.") 5 400 =
      some (chunkByParagraphs (jstr "abc def.") 5 400) :=
  c5_semantic_fallback (fun _ _ => none) 0 (jstr "abc def.") 5 400
    (by decide) (by decide)

/-! ## Claim C2: termination of the semantic sub-splitting
(`simpleCharacterSplit`)

The source's `while (start < text.length)` loop updates
`start = end - overlap`; once `end` reaches `text.length` the update is
`start = text.length - overlap`, a fixed point whenever `overlap > 0`, so
the loop never terminates.  We prove it at the concrete input
`text = 100 × 'a'` (a spaceless sentence group of length 100 > 1.5 × 50),
`maxSize = 50`, `overlap = 10`: no amount of fuel reaches the exit. -/

theorem scsGo_stuck_at_90 :
    ∀ (fuel : ℕ) (acc : List Str),
      scsGo (List.replicate 100 'a') 50 10 fuel 90 acc = none := by
  intro fuel
  induction fuel with
  | zero => intro acc; rfl
  | succ f ih =>
    intro acc
    simp only [scsGo, List.length_replicate]
    rw [if_pos (by norm_num)]
    norm_num
    exact ih _

/-- C2: `simpleCharacterSplit` never terminates on a 100-character
spaceless group with `maxSize = 50` and `overlap = 10` — the code's own
stated purpose for this routine ("to avoid infinite loops") and the spec's
termination claim both fail. -/
theorem c2_simpleCharacterSplit_diverges :
    ∀ fuel : ℕ, simpleCharacterSplit fuel (List.replicate 100 'a') 50 10 = none := by
  have s80 : ∀ (f : ℕ) (acc : List Str),
      scsGo (List.replicate 100 'a') 50 10 f 80 acc = none := by
    intro f acc
    match f with
    | 0 => rfl
    | f + 1 =>
      simp only [scsGo, List.length_replicate]
      rw [if_pos (by norm_num)]
      norm_num
      exact scsGo_stuck_at_90 f _
  have s40 : ∀ (f : ℕ) (acc : List Str),
      scsGo (List.replicate 100 'a') 50 10 f 40 acc = none := by
    intro f acc
    match f with
    | 0 => rfl
    | f + 1 =>
      simp only [scsGo, List.length_replicate]
      rw [if_pos (by norm_num)]
      norm_num
      exact s80 f _
  intro fuel
  match fuel with
  | 0 => rfl
  | f + 1 =>
    show scsGo (List.replicate 100 'a') 50 10 (f + 1) 0 [] = none
    simp only [scsGo, List.length_replicate]
    rw [if_pos (by norm_num)]
    norm_num
    exact s40 f _

/-! ## Claims C1 and C8: retrieval bounds and error behaviour -/

theorem searchAccStep_scores (threshold : ℚ) :
    ∀ (ms : List PMatch) (acc : List PineconeSearchResult),
      (∀ r ∈ acc, threshold ≤ r.similarity) →
      ∀ r ∈ ms.foldl (searchAccStep threshold) acc, threshold ≤ r.similarity
  | [], _, hacc => hacc
  | m :: ms, acc, hacc => by
    rw [List.foldl_cons]
    refine searchAccStep_scores threshold ms (searchAccStep threshold acc m) ?_
    intro r hr
    simp only [searchAccStep] at hr
    rcases hmd : m.metadata with _ | md
    · rw [hmd] at hr
      exact hacc r hr
    · rw [hmd] at hr
      have hr' : r ∈ (if m.score.getD 0 ≥ threshold then
          acc ++ [{ id := m.id, content := md.content,
                    similarity := m.score.getD 0, metadata := md }]
          else acc) := hr
      by_cases hge : m.score.getD 0 ≥ threshold
      · rw [if_pos hge] at hr'
        rcases List.mem_append.mp hr' with h | h
        · exact hacc r h
        · rcases List.mem_singleton.mp h with rfl
          exact hge
      · rw [if_neg hge] at hr'
        exact hacc r hr' 

theorem searchSimilar_ok {env : PineconeEnv} {q : Str} {agentId : Int} {limit : ℕ}
    {threshold : ℚ} {filters : SearchFilters} {rs : List PineconeSearchResult}
    (h : searchSimilar env q agentId limit threshold filters = .ok rs) :
    rs.length ≤ limit ∧ ∀ r ∈ rs, threshold ≤ r.similarity := by
  unfold searchSimilar at h
  cases hemb : generateEmbedding env q with
  | error e => rw [hemb] at h; exact absurd h (by simp [Bind.bind, Except.bind])
  | ok qe =>
    rw [hemb] at h
    simp only [Bind.bind, Except.bind] at h
    cases hq : env.query
      { vector := qe
        topK := limit * 2
        filter := .search agentId filters.source_type filters.content_type
          filters.language filters.min_length } with
    | error e =>
      rw [hq] at h
      exact absurd h (by simp)
    | ok ms =>
      rw [hq] at h
      simp only [pure, Except.pure, Except.ok.injEq] at h
      subst h
      constructor
      · exact List.length_take_le _ _
      · intro r hr
        exact searchAccStep_scores threshold ms [] (by simp) r
          (List.take_subset _ _ hr)

theorem contextEnhance_similarity (env : PineconeEnv) (agentId : Int)
    (contextWindow : ℕ) (r : PineconeSearchResult) :
    (contextEnhance env agentId contextWindow r).similarity = r.similarity := by
  simp only [contextEnhance]
  split <;> rfl

/-- C1 (amended): for every query, agent, `maxChunks`, `threshold` and
oracle behaviour, `findRelevantChunks` returns at most `maxChunks` results
under all three strategies; every result's score is ≥ the caller's
`threshold` under the vector/similarity strategy, and ≥ the fixed default
`0.7` under the contextual strategy (which ignores the caller's threshold;
the hybrid strategy re-weights scores over a fixed relaxed `0.5` vector
floor and can return scores below the caller's threshold — see
`c1_counterexample`). -/
theorem c1_findRelevantChunks_bounds (env : PineconeEnv) (query : Str)
    (agentId : Int) (maxChunks : ℕ) (threshold : ℚ)
    (strategy : SearchStrategy) (filters : SearchFilters) :
    (findRelevantChunks env query agentId maxChunks threshold strategy filters).length ≤
        maxChunks ∧
    (strategy = SearchStrategy.vector →
      ∀ r ∈ findRelevantChunks env query agentId maxChunks threshold strategy filters,
        threshold ≤ r.similarity) ∧
    (strategy = SearchStrategy.contextual →
      ∀ r ∈ findRelevantChunks env query agentId maxChunks threshold strategy filters,
        mkRat 7 10 ≤ r.similarity) := by
  cases strategy with
  | vector =>
    refine ⟨?_, fun _ r hr => ?_, fun h => absurd h (by decide)⟩
    · unfold findRelevantChunks
      cases h : searchSimilar env query agentId maxChunks threshold filters with
      | error e => simp
      | ok rs => simpa using (searchSimilar_ok h).1
    · unfold findRelevantChunks at hr
      cases h : searchSimilar env query agentId maxChunks threshold filters with
      | error e => rw [h] at hr; simp at hr
      | ok rs =>
        rw [h] at hr
        rcases List.mem_map.mp hr with ⟨r', hr', rfl⟩
        exact (searchSimilar_ok h).2 r' hr'
  | hybrid =>
    refine ⟨?_, fun h => absurd h (by decide), fun h => absurd h (by decide)⟩
    unfold findRelevantChunks
    cases h : hybridSearch env query agentId maxChunks with
    | error e => simp
    | ok rs =>
      simp only [List.length_map]
      unfold hybridSearch at h
      cases h2 : searchSimilar env query agentId (maxChunks * 2) (mkRat 1 2) {} with
      | error e =>
        rw [h2] at h
        exact absurd h (by simp [Bind.bind, Except.bind])
      | ok vrs =>
        rw [h2] at h
        simp only [Bind.bind, Except.bind, pure, Except.pure, Except.ok.injEq] at h
        subst h
        exact List.length_take_le _ _
  | contextual =>
    have hmain : ∀ r ∈ findRelevantChunks env query agentId maxChunks threshold
        SearchStrategy.contextual filters, mkRat 7 10 ≤ r.similarity := by
      intro r hr
      unfold findRelevantChunks at hr
      cases h : contextualSearch env query agentId maxChunks 2 with
      | error e => rw [h] at hr; simp at hr
      | ok rs =>
        rw [h] at hr
        rcases List.mem_map.mp hr with ⟨r', hr', rfl⟩
        unfold contextualSearch at h
        cases h2 : searchSimilar env query agentId maxChunks (mkRat 7 10) {} with
        | error e =>
          rw [h2] at h
          exact absurd h (by simp [Bind.bind, Except.bind])
        | ok srs =>
          rw [h2] at h
          simp only [Bind.bind, Except.bind, pure, Except.pure, Except.ok.injEq] at h
          subst h
          rcases List.mem_map.mp hr' with ⟨r0, hr0, rfl⟩
          show mkRat 7 10 ≤ (contextEnhance env agentId 2 r0).similarity
          rw [contextEnhance_similarity]
          exact (searchSimilar_ok h2).2 r0 hr0
    refine ⟨?_, fun h => absurd h (by decide), fun _ => hmain⟩
    unfold findRelevantChunks
    cases h : contextualSearch env query agentId maxChunks 2 with
    | error e => simp
    | ok rs =>
      simp only [List.length_map]
      unfold contextualSearch at h
      cases h2 : searchSimilar env query agentId maxChunks (mkRat 7 10) {} with
      | error e =>
        rw [h2] at h
        exact absurd h (by simp [Bind.bind, Except.bind])
      | ok srs =>
        rw [h2] at h
        simp only [Bind.bind, Except.bind, pure, Except.pure, Except.ok.injEq] at h
        subst h
        rw [List.length_map]
        exact (searchSimilar_ok h2).1

/-- A single stored chunk visible to the retrieval counterexamples. -/
def mdZ : RMeta :=
  { agent_id := 1, knowledge_source_id := 1, content := jstr "zzzz", chunk_index := 0 }

/-- Oracle for `c1_counterexample`: the scoped search returns one match of
score `0.7`; the context query (recognisable by its `topK = 5`) matches
nothing. -/
def envCtx : PineconeEnv :=
  { embedRaw := fun _ => .ok [1]
    query := fun req =>
      if req.topK == 5 then .ok []
      else .ok [{ id := jstr "m1", score := some (mkRat 7 10), metadata := some mdZ }] }

/-- C1 counterexample: with the contextual strategy and caller threshold
`0.9`, `findRelevantChunks` returns a result whose score `0.7` is below the
caller's threshold (the strategy uses the fixed default `0.7` instead). -/
theorem c1_counterexample :
    ∃ r ∈ findRelevantChunks envCtx (jstr "hello") 1 3 (mkRat 9 10)
        SearchStrategy.contextual {}, r.similarity < mkRat 9 10 := by
  decide

/-- Oracle for `c1_witness`: one match of score `0.9`. -/
def envW : PineconeEnv :=
  { embedRaw := fun _ => .ok [1]
    query := fun _ =>
      .ok [{ id := jstr "m1", score := some (mkRat 9 10), metadata := some mdZ }] }

/-- C1 witness: concrete vector-strategy run of the amended theorem. -/
theorem c1_witness :
    (findRelevantChunks envW (jstr "hello") 1 3 (mkRat 1 2)
        SearchStrategy.vector {}).length ≤ 3 ∧
    (findRelevantChunks envW (jstr "hello") 1 3 (mkRat 1 2)
        SearchStrategy.vector {}).all
      (fun r => decide (mkRat 1 2 ≤ r.similarity)) = true := by
  have h := c1_findRelevantChunks_bounds envW (jstr "hello") 1 3 (mkRat 1 2)
    SearchStrategy.vector {}
  refine ⟨h.1, List.all_eq_true.mpr (fun r hr => decide_eq_true (h.2.1 rfl r hr))⟩

theorem searchSimilar_query_error {env : PineconeEnv} {v : List ℚ}
    (hemb : ∀ s, env.embedRaw s = .ok v) {e : Str}
    (hq : ∀ req, env.query req = .error e) (q : Str) (a : Int) (l : ℕ) (t : ℚ)
    (f : SearchFilters) : searchSimilar env q a l t f = .error e := by
  unfold searchSimilar generateEmbedding
  rw [hemb]
  show Except.bind (env.query _) _ = _
  rw [hq]
  rfl

theorem searchSimilar_query_nil {env : PineconeEnv} {v : List ℚ}
    (hemb : ∀ s, env.embedRaw s = .ok v)
    (hq : ∀ req, env.query req = .ok []) (q : Str) (a : Int) (l : ℕ) (t : ℚ)
    (f : SearchFilters) : searchSimilar env q a l t f = .ok [] := by
  unfold searchSimilar generateEmbedding
  rw [hemb]
  show Except.bind (env.query _) _ = _
  rw [hq]
  show Except.ok (List.take l []) = Except.ok []
  rw [List.take_nil]

/-- C8 (amended): a vector-index error propagates (as a thrown error) out
of the vector store's `searchSimilar`, but `findRelevantChunks` — the
retrieval entry point — catches every error and returns the empty list
instead of any failure; a query matching zero chunks likewise returns the
empty list without raising. -/
theorem c8_retrieval_errors (env : PineconeEnv) (query : Str) (agentId : Int)
    (maxChunks : ℕ) (threshold : ℚ) (filters : SearchFilters) (v : List ℚ)
    (hemb : ∀ s, env.embedRaw s = .ok v) :
    (∀ e, (∀ req, env.query req = .error e) →
      searchSimilar env query agentId maxChunks threshold filters = .error e ∧
      ∀ strategy, findRelevantChunks env query agentId maxChunks threshold
        strategy filters = []) ∧
    ((∀ req, env.query req = .ok []) →
      searchSimilar env query agentId maxChunks threshold filters = .ok [] ∧
      ∀ strategy, findRelevantChunks env query agentId maxChunks threshold
        strategy filters = []) := by
  constructor
  · intro e hq
    refine ⟨searchSimilar_query_error hemb hq _ _ _ _ _, fun strategy => ?_⟩
    cases strategy with
    | vector =>
      unfold findRelevantChunks
      rw [searchSimilar_query_error hemb hq query agentId maxChunks threshold filters]
    | hybrid =>
      unfold findRelevantChunks hybridSearch
      rw [searchSimilar_query_error hemb hq query agentId (maxChunks * 2) (mkRat 1 2) {}]
      rfl
    | contextual =>
      unfold findRelevantChunks contextualSearch
      rw [searchSimilar_query_error hemb hq query agentId maxChunks (mkRat 7 10) {}]
      rfl
  · intro hq
    refine ⟨searchSimilar_query_nil hemb hq _ _ _ _ _, fun strategy => ?_⟩
    cases strategy with
    | vector =>
      unfold findRelevantChunks
      rw [searchSimilar_query_nil hemb hq query agentId maxChunks threshold filters]
      rfl
    | hybrid =>
      unfold findRelevantChunks hybridSearch
      rw [searchSimilar_query_nil hemb hq query agentId (maxChunks * 2) (mkRat 1 2) {}]
      simp [jsSort]
    | contextual =>
      unfold findRelevantChunks contextualSearch
      rw [searchSimilar_query_nil hemb hq query agentId maxChunks (mkRat 7 10) {}]
      rfl

/-- Oracle whose vector-index queries always reject. -/
def envQErr : PineconeEnv :=
  { embedRaw := fun _ => .ok [1], query := fun _ => .error (jstr "boom") }

/-- C8 counterexample: when the vector index client throws, the vector
store re-throws (`searchSimilar` is an error), but `findRelevantChunks`
returns the plain empty list — no `RetrievalUnavailable`-style failure ever
reaches its caller, contrary to the claim. -/
theorem c8_counterexample :
    searchSimilar envQErr (jstr "hello") 1 3 (mkRat 7 10) {} =
      .error (jstr "boom") ∧
    findRelevantChunks envQErr (jstr "hello") 1 3 (mkRat 7 10)
      SearchStrategy.vector {} = [] := by
  decide

/-- C8 witness: the amended theorem applied to the concrete rejecting
oracle. -/
theorem c8_witness :
    searchSimilar envQErr (jstr "hi") 1 5 (mkRat 7 10) {} = .error (jstr "boom") ∧
    findRelevantChunks envQErr (jstr "hi") 1 5 (mkRat 7 10)
      SearchStrategy.hybrid {} = [] := by
  have h := (c8_retrieval_errors envQErr (jstr "hi") 1 5 (mkRat 7 10) {} [1]
    (fun _ => rfl)).1 (jstr "boom") (fun _ => rfl)
  exact ⟨h.1, h.2 SearchStrategy.hybrid⟩

/-! ## Claims C3, C7, C10: ingestion, per-chunk retry, truncation -/

theorem truncate40k_eq_take (c : Str) : truncate40k c = c.take 40000 := by
  unfold truncate40k
  by_cases h : c.length > 40000
  · rw [if_pos h]
    simp [jsSliceNN]
  · rw [if_neg h]
    rw [List.take_of_length_le (by omega)]

theorem truncate40k_idem (c : Str) : truncate40k (truncate40k c) = truncate40k c := by
  simp [truncate40k_eq_take, List.take_take]

/-- Whether an `addDocument` attempt `k` would succeed externally: embedding
and upsert both succeed at attempt `k` (the embedding input is the truncated
content). -/
def attemptOk (env : AddDocEnv) (content : Str) (k : ℕ) : Prop :=
  (env.embed k (if truncate40k content = [] then [' '] else truncate40k content)).toBool =
    true ∧ (env.upsert k).toBool = true

instance (env : AddDocEnv) (content : Str) (k : ℕ) :
    Decidable (attemptOk env content k) := by
  unfold attemptOk
  infer_instance

theorem addDocAttempt_isOk {env : AddDocEnv} {ks ag : Int} {content : Str}
    {chunkIndex : Int} {sn st : Option Str} {add : List (Str × Str)} {k : ℕ}
    (h : jsTrim content ≠ []) :
    (addDocAttempt env ks ag content chunkIndex sn st add k).toBool = true ↔
      attemptOk env content k := by
  unfold addDocAttempt attemptOk
  rw [if_neg (by simpa using h)]
  cases he : env.embed k (if truncate40k content = [] then [' ']
      else truncate40k content) with
  | error e => simp [he, Except.toBool]
  | ok emb =>
    cases hu : env.upsert k with
    | error e => simp [he, hu, Except.toBool]
    | ok _ => simp [he, hu, Except.toBool]

theorem addDocAttempt_ok_meta {env : AddDocEnv} {ks ag : Int} {content : Str}
    {chunkIndex : Int} {sn st : Option Str} {add : List (Str × Str)} {k : ℕ}
    {d : StoredDoc}
    (h : addDocAttempt env ks ag content chunkIndex sn st add k = .ok d) :
    d.metadata.content = jsSliceNN (truncate40k content) 0 40000 ∧
    d.metadata.content_length = ((truncate40k content).length : Int) ∧
    env.embed k (if truncate40k content = [] then [' '] else truncate40k content) =
      .ok d.values := by
  simp only [addDocAttempt] at h
  by_cases hval : (jsTrim content).length = 0
  · rw [if_pos hval] at h
    cases h
  · rw [if_neg hval] at h
    cases he : env.embed k (if truncate40k content = [] then [' ']
        else truncate40k content) with
    | error e => rw [he] at h; cases h
    | ok emb =>
      rw [he] at h
      cases hu : env.upsert k with
      | error e => rw [hu] at h; cases h
      | ok _ =>
        rw [hu] at h
        cases h
        exact ⟨rfl, rfl, rfl⟩

theorem addAttemptLoop_ok {env : AddDocEnv} {ks ag chunkIndex : Int}
    {sn st : Option Str} {add : List (Str × Str)} {attempt left : ℕ}
    {content : Str} {waits : List ℕ} {d : StoredDoc}
    (h : addDocAttempt env ks ag content chunkIndex sn st add attempt = .ok d) :
    addAttemptLoop env ks ag chunkIndex sn st add attempt (left + 1) content waits =
      ⟨.ok d, attempt, waits⟩ := by
  rw [addAttemptLoop, h]

theorem addAttemptLoop_err_last {env : AddDocEnv} {ks ag chunkIndex : Int}
    {sn st : Option Str} {add : List (Str × Str)} {attempt : ℕ}
    {content : Str} {waits : List ℕ} {e : Str}
    (h : addDocAttempt env ks ag content chunkIndex sn st add attempt = .error e) :
    addAttemptLoop env ks ag chunkIndex sn st add attempt (0 + 1) content waits =
      ⟨.error e, attempt, waits⟩ := by
  rw [addAttemptLoop, h]
  rfl

theorem addAttemptLoop_err_step {env : AddDocEnv} {ks ag chunkIndex : Int}
    {sn st : Option Str} {add : List (Str × Str)} {attempt l : ℕ}
    {content : Str} {waits : List ℕ} {e : Str}
    (h : addDocAttempt env ks ag content chunkIndex sn st add attempt = .error e) :
    addAttemptLoop env ks ag chunkIndex sn st add attempt (l + 1 + 1) content waits =
      addAttemptLoop env ks ag chunkIndex sn st add (attempt + 1) (l + 1)
        (if (jsTrim content).length = 0 then content else truncate40k content)
        (waits ++ [min (1000 * 2 ^ (attempt - 1)) 5000]) := by
  rw [addAttemptLoop, h]
  rfl

theorem attemptOk_trunc {env : AddDocEnv} {content : Str} {k : ℕ} :
    attemptOk env (truncate40k content) k ↔ attemptOk env content k := by
  unfold attemptOk
  rw [truncate40k_idem]

/-- Retry/backoff behaviour of one `addDocument` call, under the proviso
that validation passes at every attempt (the original and the truncated
content are not whitespace-only): at most 3 attempts, success exactly when
some attempt's embedding and upsert both succeed, and the waits performed
are `min(1000·2ⁿ, 5000)` for each completed-but-failed attempt `n+1`. -/
theorem addDocument_spec (env : AddDocEnv) (ks ag : Int) (content : Str)
    (chunkIndex : Int) (sn st : Option Str) (add : List (Str × Str))
    (h1 : jsTrim content ≠ []) (h2 : jsTrim (truncate40k content) ≠ []) :
    (addDocument env ks ag content chunkIndex sn st add).attemptsUsed ≤ 3 ∧
    ((addDocument env ks ag content chunkIndex sn st add).result.toBool = true ↔
      attemptOk env content 1 ∨ attemptOk env content 2 ∨ attemptOk env content 3) ∧
    (addDocument env ks ag content chunkIndex sn st add).waits =
      (List.range ((addDocument env ks ag content chunkIndex sn st add).attemptsUsed - 1)).map
        (fun n => min (1000 * 2 ^ n) 5000) := by
  have hc2 : (if (jsTrim content).length = 0 then content else truncate40k content) =
      truncate40k content := if_neg (by simpa using h1)
  have hc3 : (if (jsTrim (truncate40k content)).length = 0 then truncate40k content
      else truncate40k (truncate40k content)) = truncate40k content := by
    rw [if_neg (by simpa using h2), truncate40k_idem]
  have hA1 := @addDocAttempt_isOk env ks ag content chunkIndex sn st add 1 h1
  have hA2 := @addDocAttempt_isOk env ks ag (truncate40k content) chunkIndex sn st add 2 h2
  have hA3 := @addDocAttempt_isOk env ks ag (truncate40k content) chunkIndex sn st add 3 h2
  unfold addDocument
  rw [show (3 : ℕ) = 2 + 1 from rfl]
  rcases ha1 : addDocAttempt env ks ag content chunkIndex sn st add 1 with e1 | d1
  · rw [addAttemptLoop_err_step ha1, hc2]
    have hn1 : ¬attemptOk env content 1 := by
      rw [← hA1, ha1]
      simp [Except.toBool]
    rcases ha2 : addDocAttempt env ks ag (truncate40k content) chunkIndex sn st add 2 with
      e2 | d2
    · rw [show (1 : ℕ) + 1 = 0 + 1 + 1 from rfl, addAttemptLoop_err_step ha2, hc3]
      have hn2 : ¬attemptOk env content 2 := by
        rw [← attemptOk_trunc, ← hA2, ha2]
        simp [Except.toBool]
      rcases ha3 : addDocAttempt env ks ag (truncate40k content) chunkIndex sn st add 3 with
        e3 | d3
      · rw [addAttemptLoop_err_last ha3]
        have hn3 : ¬attemptOk env content 3 := by
          rw [← attemptOk_trunc, ← hA3, ha3]
          simp [Except.toBool]
        refine ⟨by norm_num, ?_, by norm_num [List.range_succ]⟩
        simp only [Except.toBool]
        constructor
        · intro h
          exact absurd h (by simp)
        · intro h
          rcases h with h | h | h
          · exact absurd h hn1
          · exact absurd h hn2
          · exact absurd h hn3
      · rw [addAttemptLoop_ok ha3]
        have hy3 : attemptOk env content 3 :=
          attemptOk_trunc.mp (hA3.mp (by rw [ha3]; rfl))
        refine ⟨by norm_num, ?_, by norm_num [List.range_succ]⟩
        simp only [Except.toBool]
        exact iff_of_true trivial (Or.inr (Or.inr hy3))
    · rw [addAttemptLoop_ok ha2]
      have hy2 : attemptOk env content 2 :=
        attemptOk_trunc.mp (hA2.mp (by rw [ha2]; rfl))
      refine ⟨by norm_num, ?_, by norm_num [List.range_succ]⟩
      simp only [Except.toBool]
      exact iff_of_true trivial (Or.inr (Or.inl hy2))
  · rw [addAttemptLoop_ok ha1]
    have hy1 : attemptOk env content 1 := hA1.mp (by rw [ha1]; rfl)
    refine ⟨by norm_num, ?_, by norm_num [List.range_succ]⟩
    simp only [Except.toBool]
    exact iff_of_true trivial (Or.inl hy1)

/-- The outcomes of storing each chunk of an ingestion run, in list order. -/
def pkOutcomes (envs : ℕ → AddDocEnv) (processedAt : ℕ → Str)
    (sourceId agentId : Int) (sourceData : SourceData) (settings : PKSettings)
    (chunks : List DocumentChunk) : List (Except Str StoredDoc) :=
  chunks.enum.map (fun p =>
    storeChunkResult envs processedAt sourceId agentId sourceData settings p.1 p.2)

/-- How many chunks of an ingestion run were stored. -/
def storedCount (envs : ℕ → AddDocEnv) (processedAt : ℕ → Str)
    (sourceId agentId : Int) (sourceData : SourceData) (settings : PKSettings)
    (chunks : List DocumentChunk) : ℕ :=
  (pkOutcomes envs processedAt sourceId agentId sourceData settings chunks).countP
    (fun o => o.toBool)

theorem processKnowledgeSource_storage
    {extractRes : Except Str Str} {chunkRes : Str → Except Str (List DocumentChunk)}
    {envs : ℕ → AddDocEnv} {processedAt : ℕ → Str} {sourceId agentId : Int}
    {sourceData : SourceData} {settings : PKSettings} {c0 : Str}
    {chunks : List DocumentChunk}
    (hex : extractRes = .ok c0) (h1 : jsTrim c0 ≠ [])
    (h2 : ¬(jstr "Results available at:" <:+: c0))
    (h2b : ¬(jstr "full_zip_url" <:+: c0)) (h3 : ¬(c0.length < 10))
    (hch : chunkRes (if c0.length > 1000000 then jsSliceNN c0 0 1000000 else c0) =
      .ok chunks)
    (hne : ¬(chunks.length = 0)) :
    processKnowledgeSource extractRes chunkRes envs processedAt sourceId agentId
        sourceData settings =
      (if storedCount envs processedAt sourceId agentId sourceData settings chunks = 0 then
        ⟨false, 0, some (jstr "Storage failed: " ++
          (((pkOutcomes envs processedAt sourceId agentId sourceData settings
              chunks).filterMap (fun o =>
                match o with | .error e => some e | .ok _ => none)).getLast?).getD
            (jstr "Failed to store any chunks"))⟩
      else
        ⟨true, storedCount envs processedAt sourceId agentId sourceData settings chunks,
          if storedCount envs processedAt sourceId agentId sourceData settings chunks <
              chunks.length then
            some (jstr "Partial success: " ++
              natStr (storedCount envs processedAt sourceId agentId sourceData settings
                chunks) ++ ['/'] ++ natStr chunks.length ++ jstr " chunks stored")
          else none⟩) := by
  subst hex
  simp only [processKnowledgeSource, hch]
  rw [if_neg (by simpa using h1), if_neg (by simp [h2, h2b]), if_neg h3, if_neg hne]
  rfl

/-- C3: once ingestion reaches the storage phase (extraction and validation
succeed and chunking yields a non-empty list), the run reports success if
and only if at least one chunk was stored; on success the reported
`chunks_count` is the stored-chunk count and the outcome carries a partial
flag (non-`none` error message) exactly when not all chunks were stored. -/
theorem c3_processKnowledgeSource_success_iff
    (extractRes : Except Str Str) (chunkRes : Str → Except Str (List DocumentChunk))
    (envs : ℕ → AddDocEnv) (processedAt : ℕ → Str) (sourceId agentId : Int)
    (sourceData : SourceData) (settings : PKSettings) (c0 : Str)
    (chunks : List DocumentChunk)
    (hex : extractRes = .ok c0) (h1 : jsTrim c0 ≠ [])
    (h2 : ¬(jstr "Results available at:" <:+: c0))
    (h2b : ¬(jstr "full_zip_url" <:+: c0)) (h3 : ¬(c0.length < 10))
    (hch : chunkRes (if c0.length > 1000000 then jsSliceNN c0 0 1000000 else c0) =
      .ok chunks)
    (hne : ¬(chunks.length = 0)) :
    ((processKnowledgeSource extractRes chunkRes envs processedAt sourceId agentId
        sourceData settings).success = true ↔
      1 ≤ storedCount envs processedAt sourceId agentId sourceData settings chunks) ∧
    ((processKnowledgeSource extractRes chunkRes envs processedAt sourceId agentId
        sourceData settings).success = true →
      (processKnowledgeSource extractRes chunkRes envs processedAt sourceId agentId
          sourceData settings).chunks_count =
        storedCount envs processedAt sourceId agentId sourceData settings chunks ∧
      ((processKnowledgeSource extractRes chunkRes envs processedAt sourceId agentId
          sourceData settings).error = none ↔
        storedCount envs processedAt sourceId agentId sourceData settings chunks =
          chunks.length)) := by
  rw [processKnowledgeSource_storage hex h1 h2 h2b h3 hch hne]
  have hle : storedCount envs processedAt sourceId agentId sourceData settings chunks ≤
      chunks.length := by
    have := List.countP_le_length (p := fun o => o.toBool)
      (l := pkOutcomes envs processedAt sourceId agentId sourceData settings chunks)
    simpa [storedCount, pkOutcomes] using this
  by_cases h0 : storedCount envs processedAt sourceId agentId sourceData settings chunks = 0
  · rw [if_pos h0]
    refine ⟨?_, ?_⟩
    · simp [h0]
    · intro h
      exact absurd h (by simp)
  · rw [if_neg h0]
    refine ⟨by simpa using Nat.one_le_iff_ne_zero.mpr h0, fun _ => ⟨rfl, ?_⟩⟩
    by_cases hlt : storedCount envs processedAt sourceId agentId sourceData settings chunks <
        chunks.length
    · rw [if_pos hlt]
      simp
      omega
    · rw [if_neg hlt]
      simp
      omega

/-- C7: per-chunk storage is attempted up to 3 times with backoff delay
`min(1000·2^(n-1), 5000)` ms after failed attempt `n`; the chunk counts as
stored when any of the three attempts succeeds; and when every chunk's
storage succeeds within its three attempts (for instance failing twice and
succeeding on the third), the ingestion run still reports success with the
full chunk count and no partial flag. -/
theorem c7_addDocument_retry_policy (env : AddDocEnv) (ks ag : Int)
    (content : Str) (chunkIndex : Int) (sn st : Option Str)
    (add : List (Str × Str))
    (h1 : jsTrim content ≠ []) (h2 : jsTrim (truncate40k content) ≠ []) :
    (addDocument env ks ag content chunkIndex sn st add).attemptsUsed ≤ 3 ∧
    ((addDocument env ks ag content chunkIndex sn st add).result.toBool = true ↔
      attemptOk env content 1 ∨ attemptOk env content 2 ∨ attemptOk env content 3) ∧
    (addDocument env ks ag content chunkIndex sn st add).waits =
      (List.range ((addDocument env ks ag content chunkIndex sn st add).attemptsUsed - 1)).map
        (fun n => min (1000 * 2 ^ n) 5000) ∧
    (∀ (extractRes : Except Str Str)
      (chunkRes : Str → Except Str (List DocumentChunk)) (envs : ℕ → AddDocEnv)
      (processedAt : ℕ → Str) (sourceId agentId : Int) (sourceData : SourceData)
      (settings : PKSettings) (c0 : Str) (chunks : List DocumentChunk),
      extractRes = .ok c0 → jsTrim c0 ≠ [] →
      ¬(jstr "Results available at:" <:+: c0) → ¬(jstr "full_zip_url" <:+: c0) →
      ¬(c0.length < 10) →
      chunkRes (if c0.length > 1000000 then jsSliceNN c0 0 1000000 else c0) = .ok chunks →
      ¬(chunks.length = 0) →
      (∀ o ∈ pkOutcomes envs processedAt sourceId agentId sourceData settings chunks,
        o.toBool = true) →
      processKnowledgeSource extractRes chunkRes envs processedAt sourceId agentId
        sourceData settings = ⟨true, chunks.length, none⟩) := by
  obtain ⟨hA, hB, hC⟩ := addDocument_spec env ks ag content chunkIndex sn st add h1 h2
  refine ⟨hA, hB, hC, ?_⟩
  intro extractRes chunkRes envs processedAt sourceId agentId sourceData settings c0
    chunks hex g1 g2 g2b g3 hch hne hall
  rw [processKnowledgeSource_storage hex g1 g2 g2b g3 hch hne]
  have hcnt : storedCount envs processedAt sourceId agentId sourceData settings chunks =
      chunks.length := by
    unfold storedCount
    rw [List.countP_eq_length.mpr hall]
    simp [pkOutcomes]
  rw [if_neg (by omega), hcnt, if_neg (by omega)]

/-- C10: every document stored by `addDocument` carries content truncated
to at most 40 000 characters, both as the stored `content` metadata field
and as the `content_length`, and the stored embedding was computed over the
truncated content (the input actually sent to the embedding service at the
successful attempt `k ∈ [1,3]` is the truncated content). -/
theorem c10_addDocument_truncation (env : AddDocEnv) (ks ag : Int)
    (content : Str) (chunkIndex : Int) (sn st : Option Str)
    (add : List (Str × Str)) (d : StoredDoc)
    (hok : (addDocument env ks ag content chunkIndex sn st add).result = .ok d) :
    d.metadata.content = content.take 40000 ∧
    d.metadata.content_length = ((content.take 40000).length : Int) ∧
    ∃ k, 1 ≤ k ∧ k ≤ 3 ∧
      env.embed k (if content.take 40000 = [] then [' '] else content.take 40000) =
        .ok d.values := by
  have hsl : jsSliceNN (truncate40k content) 0 40000 = content.take 40000 := by
    simp [jsSliceNN, truncate40k_eq_take, List.take_take]
  have hlen : (truncate40k content).length = (content.take 40000).length := by
    rw [truncate40k_eq_take]
  unfold addDocument at hok
  rw [show (3 : ℕ) = 2 + 1 from rfl] at hok
  rcases ha1 : addDocAttempt env ks ag content chunkIndex sn st add 1 with e1 | d1
  · rw [addAttemptLoop_err_step ha1] at hok
    have htr2 : truncate40k (if (jsTrim content).length = 0 then content
        else truncate40k content) = truncate40k content := by
      by_cases h : (jsTrim content).length = 0
      · rw [if_pos h]
      · rw [if_neg h, truncate40k_idem]
    rcases ha2 : addDocAttempt env ks ag
        (if (jsTrim content).length = 0 then content else truncate40k content)
        chunkIndex sn st add 2 with e2 | d2
    · rw [show (1 : ℕ) + 1 = 0 + 1 + 1 from rfl, addAttemptLoop_err_step ha2] at hok
      have htr3 : truncate40k (if (jsTrim (if (jsTrim content).length = 0 then content
          else truncate40k content)).length = 0 then
            (if (jsTrim content).length = 0 then content else truncate40k content)
          else truncate40k (if (jsTrim content).length = 0 then content
            else truncate40k content)) = truncate40k content := by
        by_cases h : (jsTrim (if (jsTrim content).length = 0 then content
            else truncate40k content)).length = 0
        · rw [if_pos h, htr2]
        · rw [if_neg h, truncate40k_idem, htr2]
      rcases ha3 : addDocAttempt env ks ag
          (if (jsTrim (if (jsTrim content).length = 0 then content
            else truncate40k content)).length = 0 then
              (if (jsTrim content).length = 0 then content else truncate40k content)
            else truncate40k (if (jsTrim content).length = 0 then content
              else truncate40k content))
          chunkIndex sn st add 3 with e3 | d3
      · rw [addAttemptLoop_err_last ha3] at hok
        cases hok
      · rw [addAttemptLoop_ok ha3] at hok
        cases hok
        obtain ⟨hm1, hm2, hm3⟩ := addDocAttempt_ok_meta ha3
        rw [htr3] at hm1 hm2 hm3
        exact ⟨by rw [hm1, hsl], by rw [hm2, hlen], 3, by norm_num, by norm_num,
          by rw [← truncate40k_eq_take, hm3]⟩
    · rw [addAttemptLoop_ok ha2] at hok
      cases hok
      obtain ⟨hm1, hm2, hm3⟩ := addDocAttempt_ok_meta ha2
      rw [htr2] at hm1 hm2 hm3
      exact ⟨by rw [hm1, hsl], by rw [hm2, hlen], 2, by norm_num, by norm_num,
        by rw [← truncate40k_eq_take, hm3]⟩
  · rw [addAttemptLoop_ok ha1] at hok
    cases hok
    obtain ⟨hm1, hm2, hm3⟩ := addDocAttempt_ok_meta ha1
    exact ⟨by rw [hm1, hsl], by rw [hm2, hlen], 1, by norm_num, by norm_num,
      by rw [← truncate40k_eq_take, hm3]⟩

/-- A per-attempt environment in which every external call succeeds. -/
def env0 : AddDocEnv :=
  { embed := fun _ _ => .ok [1, 2]
    upsert := fun _ => .ok ()
    now := fun _ => 42
    createdAt := fun _ => jstr "t0" }

/-- A per-attempt environment failing at attempts 1 and 2 and succeeding at
attempt 3. -/
def envFail2 : AddDocEnv :=
  { embed := fun a _ => if a ≤ 2 then .error (jstr "boom") else .ok [1]
    upsert := fun _ => .ok ()
    now := fun _ => 42
    createdAt := fun _ => jstr "t0" }

/-- Concrete source data for the ingestion witnesses. -/
def sd0 : SourceData := { type := jstr "text", name := jstr "n" }

/-- Concrete settings for the ingestion witnesses. -/
def ps0 : PKSettings :=
  { chunk_size := 2000, chunk_overlap := 400, chunking_strategy := jstr "recursive" }

/-- C3 witness: a one-chunk ingestion whose storage succeeds reports
success. -/
theorem c3_witness :
    (processKnowledgeSource (Except.ok (jstr "hello world"))
      (fun _ => .ok [⟨jstr "hello world", [], 0⟩]) (fun _ => env0)
      (fun _ => jstr "t") 7 3 sd0 ps0).success = true := by
  have h := c3_processKnowledgeSource_success_iff (Except.ok (jstr "hello world"))
    (fun _ => .ok [⟨jstr "hello world", [], 0⟩]) (fun _ => env0) (fun _ => jstr "t")
    7 3 sd0 ps0 (jstr "hello world") [⟨jstr "hello world", [], 0⟩]
    rfl (by decide) (by decide) (by decide) (by decide) rfl (by decide)
  exact h.1.mpr (by decide)

/-- C7 witness: storage failing twice and succeeding on the third attempt
still stores the chunk, after backoff waits of 1000 ms and 2000 ms. -/
theorem c7_witness :
    (addDocument envFail2 7 3 (jstr "hi there") 0 none none []).result.toBool = true ∧
    (addDocument envFail2 7 3 (jstr "hi there") 0 none none []).waits = [1000, 2000] := by
  have h := c7_addDocument_retry_policy envFail2 7 3 (jstr "hi there") 0 none none []
    (by decide) (by decide)
  refine ⟨h.2.1.mpr (Or.inr (Or.inr (by decide))), ?_⟩
  rw [h.2.2.1]
  decide

/-- C10 witness: a successfully stored short document's metadata content is
its (un-truncated) 40 000-character prefix. -/
theorem c10_witness :
    ((addDocument env0 7 3 (jstr "hi there") 0 none none []).result.map
      (fun d => d.metadata.content)) = .ok (jstr "hi there") := by
  rcases hok : (addDocument env0 7 3 (jstr "hi there") 0 none none []).result with e | d
  · have hne : (addDocument env0 7 3 (jstr "hi there") 0 none none []).result.toBool =
        true := by decide
    rw [hok] at hne
    exact absurd hne (by simp [Except.toBool])
  · have h := c10_addDocument_truncation env0 7 3 (jstr "hi there") 0 none none [] d hok
    simp only [Except.map]
    rw [h.1]
    decide

/-! ## Claim C4: the queue consumer redelivers a failing job at most 3
times -/

/-- C4 (refuted — code bug).  The producer enqueues the job with
`retryCount: 0`, and `message.retry({ ...msg, retryCount })` cannot change
the message body (Cloudflare Queues redelivers the original body
unchanged), so when processing fails at every delivery: every delivery `n`
happens and carries the original body, the handler at each delivery
computes retry count `0 + 1 = 1 ≤ 3` and calls `retry` again, and the
`ackFailed` branch that would mark the source `failed` is never reached —
the job is redelivered a 5th time and at every `n` beyond, contrary to the
claimed cap of 3. -/
theorem c4_queue_redelivery_cap (process : ℕ → Except Str Unit) (msg0 : QueueMsg)
    (h0 : msg0.retryCount = some 0) (es : ℕ → Str)
    (hfail : ∀ n, process n = .error (es n)) :
    ∀ n, deliveryMsg process msg0 n = some msg0 ∧
      actionAt process msg0 n =
        some (.redeliver { msg0 with retryCount := some 1 }) ∧
      ∀ s, actionAt process msg0 n ≠ some (.ackFailed s) := by
  intro n
  induction n with
  | zero =>
    refine ⟨rfl, ?_, ?_⟩
    · simp [actionAt, deliveryMsg, handleMessage, hfail 0, h0]
    · intro s hcon
      simp [actionAt, deliveryMsg, handleMessage, hfail 0, h0] at hcon
  | succ k ih =>
    have hd : deliveryMsg process msg0 (k + 1) = some msg0 := by
      rw [deliveryMsg, ih.1, hfail k]
      simp [handleMessage, h0]
    refine ⟨hd, ?_, ?_⟩
    · simp [actionAt, hd, handleMessage, hfail (k + 1), h0]
    · intro s hcon
      simp [actionAt, hd, handleMessage, hfail (k + 1), h0] at hcon

/-- C4 witness: with every delivery failing, the job enqueued with retry
count 0 still gets a 5th delivery (index 4), carrying the original body,
and the handler's action there is yet another redelivery with computed
retry count 1. -/
theorem c4_witness :
    deliveryMsg (fun _ => Except.error (jstr "boom")) ⟨1, 2, some 0⟩ 4 =
      some ⟨1, 2, some 0⟩ ∧
    actionAt (fun _ => Except.error (jstr "boom")) ⟨1, 2, some 0⟩ 4 =
      some (.redeliver ⟨1, 2, some 1⟩) :=
  have h := c4_queue_redelivery_cap (fun _ => Except.error (jstr "boom"))
    ⟨1, 2, some 0⟩ rfl (fun _ => jstr "boom") (fun _ => rfl) 4
  ⟨h.1, h.2.1⟩

/-! ## Claim C9: deleting a knowledge source must delete its chunks first -/

/-- Metadata of a chunk of knowledge source 7 owned by agent 3. -/
def metaA3S7 : StoredMeta :=
  { agent_id := 3, knowledge_source_id := 7, content := jstr "x", chunk_index := 0,
    content_length := 1, word_count := 1, content_type := jstr "short",
    language := jstr "unknown", source_name := none, source_type := none,
    created_at := jstr "t", has_numbers := false, has_urls := false, attempt := 1,
    top_keywords := [], keyword_density := 0, additional := [] }

/-- A stored chunk of knowledge source 7, agent 3. -/
def docA3S7 : StoredDoc := { id := jstr "3_7_0_42", values := [1], metadata := metaA3S7 }

/-- App state: one stored chunk for source 7 (agent 3) and the matching
`knowledge_sources` row. -/
def st9 : AppState :=
  { vstore := [docA3S7], document_chunks := [],
    knowledge_sources := [{ id := 7, agent_id := 3 }] }

/-- C9: the DELETE endpoint passes the *source id* as the agent id
(`deleteKnowledgeSource(parseInt(sourceId), parseInt(sourceId))`), so its
vector-index filter `agent_id = 7 ∧ knowledge_source_id = 7` misses the
source's chunk (stored under `agent_id = 3`): the chunk survives while the
`knowledge_sources` row is deleted.  The correctly-parameterised call with
the owning agent's id would have deleted it. -/
theorem c9_delete_wrong_agent :
    (deleteKnowledgeSourceEndpoint st9 7).vstore = [docA3S7] ∧
    (deleteKnowledgeSourceEndpoint st9 7).knowledge_sources = [] ∧
    ragDeleteKnowledgeSource st9.vstore 3 7 = [] := by
  decide

end AIHub
